import Mathlib

/-!
Verification of the `ciao` controller datastore (package `datastore`,
`src/unnamed/part_000`) against its natural-language specification.

The datastore is an in-memory, write-through cache in front of a persistent
store.  The Go source is shallowly embedded here:

* Go `map` values are embedded as association lists.  The per-tenant network
  map `map[uint32]map[uint32]bool` (which only ever stores `true`) is embedded
  as a canonical strictly-sorted association list from subnet to the sorted
  list of marked host addresses, so that equality of the embedding is exactly
  equality of map contents.  String- and pair-keyed maps are embedded as plain
  association lists with extensional lookup lemmas.
* `uint32` arithmetic is embedded on `Nat`.  All address arithmetic performed
  by the allocator stays below `2^32` for the subnet sizes the datastore
  accepts, so no wrap-around modelling is needed; the one increment that can
  wrap (`incrementIP` on a 4-byte slice) is embedded with an explicit
  `% 2^32`.
* Every persistent-store call and network-controller call is a parameter of
  the embedding (a `Bool` telling whether that call succeeds, or a function
  for per-subnet `WaitForActive` results), mirroring a stubbed
  `persistentStore`.
* Go loops are embedded as structural recursions.  The allocator's outer
  subnet loop advances `start` by `maxHosts = 2^hostBits ≥ 1` per iteration
  until `start ≥ end`, so the recursion is driven by a fuel argument
  instantiated with `end - start`, which bounds the iteration count; the
  fuel-zero case returns exactly what the loop returns when `start ≥ end`,
  and with this instantiation fuel can only run out when `start ≥ end`.
-/

namespace Ciao

/-- Error values returned by the datastore facade (the named `errors.New` /
`types.Err*` values; `db` stands for any wrapped persistent-store error). -/
inductive Err where
  | noTenant
  | noBlockData
  | noStorageAttachment
  | workloadInUse
  | workloadNotFound
  | tenantNotFound
  | poolNotFound
  | poolNotEmpty
  | poolEmpty
  | duplicateSubnet
  | duplicateIP
  | invalidIP
  | subnetTooSmall
  | invalidPoolAddress
  | addressNotFound
  | noImage
  | alreadyExists
  | instanceNotFound
  | outOfAddrs
  | db
deriving DecidableEq, Repr

/-! ## Canonical maps for the tenant network

`tenant.network : map[uint32]map[uint32]bool` stores only `true` values, so an
inner map is a finite set of host addresses, embedded as a strictly sorted
`List Nat`; the outer map is a strictly sorted association list keyed by the
subnet base address. -/

/-- A tenant subnet's set of in-use host addresses (Go inner map, which only
ever stores `true`). -/
abbrev HostMap := List Nat

/-- Insertion keeping the list strictly sorted (Go `netmap[addr] = true`). -/
def hmInsert (a : Nat) : HostMap → HostMap
  | [] => [a]
  | b :: l => if a < b then a :: b :: l else if a = b then b :: l else b :: hmInsert a l

/-- Removal (Go `delete(netmap, addr)`). -/
def hmErase (a : Nat) : HostMap → HostMap
  | [] => []
  | b :: l => if b = a then hmErase a l else b :: hmErase a l

/-- The tenant network: subnet base ↦ set of in-use host addresses. -/
abbrev Net := List (Nat × HostMap)

/-- Lookup of a subnet's host map (Go `network[subnet]`; `none` is Go's nil
map for a missing key). -/
def netFind (s : Nat) : Net → Option HostMap
  | [] => none
  | (k, v) :: l => if k = s then some v else netFind s l

/-- Insert-or-replace of a subnet entry, keeping keys strictly sorted. -/
def netInsert (s : Nat) (hm : HostMap) : Net → Net
  | [] => [(s, hm)]
  | (k, v) :: l =>
    if s < k then (s, hm) :: (k, v) :: l
    else if s = k then (s, hm) :: l
    else (k, v) :: netInsert s hm l

/-- Removal of a subnet entry (Go `delete(network, subnet)`). -/
def netErase (s : Nat) : Net → Net
  | [] => []
  | (k, v) :: l => if k = s then netErase s l else (k, v) :: netErase s l

/-- The hosts marked in-use for subnet `s` (`[]` both for a missing subnet and
for an empty inner map, matching lookups in a nil Go map). -/
def hosts (n : Net) (s : Nat) : List Nat := (netFind s n).getD []

/-- Well-formedness of the canonical embedding: outer keys strictly sorted and
every inner host list strictly sorted. -/
def NetOk (n : Net) : Prop :=
  n.Pairwise (fun p q => p.1 < q.1) ∧ ∀ p ∈ n, p.2.Pairwise (· < ·)

/-- No subnet entry with an empty host map.  The datastore maintains this: a
subnet's map is created only when at least one host is immediately marked in
it, and both `cleanTenantIPs` and `ReleaseTenantIP` delete a subnet entry as
soon as its map becomes empty. -/
def NoEmpty (n : Net) : Prop := ∀ p ∈ n, p.2 ≠ []

/-- One accumulated claim of the allocator: Go `type tenantIP struct
{ subnet uint32; host uint32 }`. -/
structure TenantIP where
  subnet : Nat
  host : Nat
deriving DecidableEq, Repr

/-- One step of `Datastore.cleanTenantIPs`: delete the host mark, and delete
the subnet entry when its host map becomes empty (the Go `len(network[s]) == 0`
check; for an absent subnet both deletes are no-ops on the nil map). -/
def cleanOne (n : Net) (ip : TenantIP) : Net :=
  match netFind ip.subnet n with
  | none => n
  | some hm =>
    let hm' := hmErase ip.host hm
    if hm' = [] then netErase ip.subnet n else netInsert ip.subnet hm' n

/-- `Datastore.cleanTenantIPs`: roll back the in-memory marks for a list of
accumulated claims. -/
def cleanTenantIPs (n : Net) (ips : List TenantIP) : Net := ips.foldl cleanOne n

/-! ## The allocator `Datastore.AllocateTenantIPPool` -/

/-- Outcome of the inner host loop over one subnet. -/
inductive ScanOut where
  /-- The host loop finished the subnet without reaching `num`. -/
  | more (net : Net) (hostCount : Nat) (addrs : List Nat) (claims : List TenantIP)
  /-- `hostCount` reached `num`: the loop is at the bulk-claim point. -/
  | hitNum (net : Net) (addrs : List Nat) (claims : List TenantIP)
deriving Repr

/-- The inner loop `for host := 2; host < maxHosts-1; host++` of
`AllocateTenantIPPool`, for one subnet.  `k` counts the remaining candidate
hosts (`maxHosts - 1 - host` at entry), `host` is the loop variable.  A free
host is marked in the subnet's map and appended to the address and claim
lists; after each mark, `hostCount == num` is tested (Go `int` equality, with
`hostCount` only ever incremented from 0, hence the `Int`-valued `num`).
Go reads the inner map once into `netmap` and mutates it through the shared
reference; re-reading `netFind` at each step sees exactly those mutations. -/
def scanHosts (subnetNum startA : Nat) (num : Int) :
    Nat → Nat → Net → Nat → List Nat → List TenantIP → ScanOut
  | 0, _, net, hc, addrs, claims => .more net hc addrs claims
  | k+1, host, net, hc, addrs, claims =>
    let addr := startA + host
    let hm := hosts net subnetNum
    if addr ∈ hm then
      scanHosts subnetNum startA num k (host+1) net hc addrs claims
    else
      let net' := netInsert subnetNum (hmInsert addr hm) net
      let addrs' := addrs ++ [addr]
      let claims' := claims ++ [⟨subnetNum, addr⟩]
      if ((hc : Int) + 1) = num then .hitNum net' addrs' claims'
      else scanHosts subnetNum startA num k (host+1) net' (hc+1) addrs' claims'

/-- Outcome of the outer subnet loop. -/
inductive AllocOut where
  /-- `start` reached `end`: the scan exhausted the address space; the
  accumulated claims are still marked in `net` and must be rolled back. -/
  | outOfAddrs (net : Net) (claims : List TenantIP)
  /-- `num` addresses were accumulated: the loop is at the call to
  `db.claimTenantIPs`. -/
  | claimPoint (net : Net) (addrs : List Nat) (claims : List TenantIP)
deriving Repr

/-- The outer subnet loop of `AllocateTenantIPPool`.  Per iteration: stop with
"out of addrs" when `start ≥ end`; otherwise materialise the subnet's host map
if missing (Go `subnets[subnetNum] = make(map[uint32]bool)`), run the host
loop, and continue at `start + maxHosts`.  The fuel argument drives the
recursion; instantiated with `end - start` it bounds the number of iterations
(each iteration advances `start` by `maxHosts = 2^hostBits ≥ 1`), and the
fuel-zero case coincides with the `start ≥ end` exit. -/
def allocScan (endA mask hostBits : Nat) (num : Int) :
    Nat → Nat → Net → Nat → List Nat → List TenantIP → AllocOut
  | 0, _, net, _, _, claims => .outOfAddrs net claims
  | fuel+1, start, net, hc, addrs, claims =>
    let maxHosts := 2 ^ hostBits
    if endA ≤ start then .outOfAddrs net claims
    else
      let subnetNum := start &&& mask
      let net1 := match netFind subnetNum net with
        | none => netInsert subnetNum [] net
        | some _ => net
      match scanHosts subnetNum start num (maxHosts - 1 - 2) 2 net1 hc addrs claims with
      | .hitNum n a c => .claimPoint n a c
      | .more n hc' a c => allocScan endA mask hostBits num fuel (start + maxHosts) n hc' a c

/-- `net.CIDRMask(ones, 32)` as a 32-bit integer. -/
def maskOf (ones : Nat) : Nat := 2 ^ 32 - 2 ^ (32 - ones)

/-- `Datastore.activateSubnets`: with a network-controller handle present,
`WaitForActive` is called on each address's subnet in order and the first
failure aborts the walk.  Only whether some call failed is observable here, so
the embedding returns that Boolean (`waitOK` is the stubbed per-subnet
`WaitForActive` outcome). -/
def activateSubnets (cnci : Bool) (waitOK : Nat → Bool) (subnetBits : Nat)
    (addrs : List Nat) : Bool :=
  if cnci then addrs.any (fun ip => !(waitOK (ip &&& maskOf subnetBits))) else false

/-- Result of `AllocateTenantIPPool`: the returned address slice (`none` is
Go's nil slice), the returned error, the tenant's network map afterwards, and
whether the deferred activation pass observed a `WaitForActive` failure.  The
Go function has unnamed result parameters, and the deferred closure assigns
the activation error to the local `retval` only after the result values have
been bound, so that error never reaches the caller; the embedding records it
in `droppedActivationErr` instead of in `err`. -/
structure AllocResult where
  addrs : Option (List Nat)
  err : Option Err
  net : Net
  droppedActivationErr : Bool
deriving DecidableEq, Repr

/-- Shallow embedding of `Datastore.AllocateTenantIPPool` for one tenant.

`net₀` is the tenant's `network` map, `subnetBits` the tenant's `SubnetBits`.
`pick` embeds the Go `for k, v := range subnets` search for a subnet with
`len(v) < maxHosts`: map iteration order is unspecified, so the chosen key is
a parameter (`pickValid` states which choices Go can make).  `claimOK` is the
stubbed `db.claimTenantIPs` outcome, `cnci`/`waitOK` the stubbed
network-controller handle.

The CIDR is the hardcoded `172.16.0.0/subnetBits` (`0xAC100000`); `end` is
`((start >> 20) + 1) << 20` computed from the masked start. -/
def allocateTenantIPPool (net₀ : Net) (subnetBits : Nat) (num : Int)
    (pick : Option Nat) (claimOK : Bool) (cnci : Bool) (waitOK : Nat → Bool) :
    AllocResult :=
  let mask := maskOf subnetBits
  let start0 := 0xAC100000 &&& mask
  let endA := ((start0 >>> 20) + 1) <<< 20
  let hostBits := 32 - subnetBits
  let start := pick.getD start0
  match allocScan endA mask hostBits num (endA - start) start net₀ 0 [] [] with
  | .outOfAddrs n claims =>
    { addrs := none, err := some .outOfAddrs, net := cleanTenantIPs n claims,
      droppedActivationErr := false }
  | .claimPoint n addrs claims =>
    if claimOK then
      { addrs := some addrs, err := none, net := n,
        droppedActivationErr := activateSubnets cnci waitOK subnetBits addrs }
    else
      { addrs := none, err := some .db, net := cleanTenantIPs n claims,
        droppedActivationErr := false }

/-- Which subnet keys the Go range loop `for k, v := range subnets { if len(v)
< maxHosts { start = k; break } }` can select: some key whose host map is not
full, or no key only when every host map is full. -/
def pickValid (net : Net) (maxHosts : Nat) : Option Nat → Prop
  | none => ∀ p ∈ net, maxHosts ≤ p.2.length
  | some k => ∃ hm, netFind k net = some hm ∧ hm.length < maxHosts

end Ciao



namespace Ciao

/-- The network map carried by an inner-loop outcome. -/
def ScanOut.netOf : ScanOut → Net
  | .more n _ _ _ => n
  | .hitNum n _ _ => n

/-- The accumulated claim list carried by an inner-loop outcome. -/
def ScanOut.claimsOf : ScanOut → List TenantIP
  | .more _ _ _ c => c
  | .hitNum _ _ c => c

/-- The network map carried by an outer-loop outcome. -/
def AllocOut.netOf : AllocOut → Net
  | .outOfAddrs n _ => n
  | .claimPoint n _ _ => n

/-- The accumulated claim list carried by an outer-loop outcome. -/
def AllocOut.claimsOf : AllocOut → List TenantIP
  | .outOfAddrs _ c => c
  | .claimPoint _ _ c => c

/-- Relation between the tenant network at some point of the allocator's scan
(`net`), the network at entry (`net₀`), and the claims accumulated so far
(`cs`): the scan has marked exactly the claimed hosts, each claimed host was
free at entry, no host was claimed twice, the subnets present are those
present at entry plus those the scan marked a host in, and no subnet entry
holds an empty host map.  This is the loop invariant from which the rollback
`cleanTenantIPs net cs = net₀` follows. -/
structure Evolved (net₀ net : Net) (cs : List TenantIP) : Prop where
  ok : NetOk net
  mem : ∀ s a, a ∈ hosts net s ↔ (a ∈ hosts net₀ s ∨ (⟨s, a⟩ : TenantIP) ∈ cs)
  fresh : ∀ c ∈ cs, c.host ∉ hosts net₀ c.subnet
  nodup : cs.Nodup
  present : ∀ s, (netFind s net).isSome ↔
    ((netFind s net₀).isSome ∨ ∃ c ∈ cs, TenantIP.subnet c = s)
  noEmptyN : NoEmpty net

/-! ## Go maps keyed by strings and pairs

The remaining caches are Go maps with string (or pair) keys; they are embedded
as plain association lists with first-binding-wins lookup.  `insertKV`
replaces in place and `eraseKV` deletes a key; `eraseFirst` is the Go slice
idiom `append(s[:i], s[i+1:]...)` applied at the first index whose value
matches. -/

/-- Map lookup. -/
def lookupKV {κ α : Type} [DecidableEq κ] (k : κ) : List (κ × α) → Option α
  | [] => none
  | (k', v) :: l => if k' = k then some v else lookupKV k l

/-- Map store: replace the binding in place, or append a new one. -/
def insertKV {κ α : Type} [DecidableEq κ] (k : κ) (v : α) :
    List (κ × α) → List (κ × α)
  | [] => [(k, v)]
  | (k', v') :: l => if k' = k then (k, v) :: l else (k', v') :: insertKV k v l

/-- Map delete. -/
def eraseKV {κ α : Type} [DecidableEq κ] (k : κ) : List (κ × α) → List (κ × α)
  | [] => []
  | (k', v') :: l => if k' = k then eraseKV k l else (k', v') :: eraseKV k l

/-- Remove the first occurrence of a value from a slice of ids; a missing
value leaves the slice unchanged. -/
def eraseFirst (x : String) : List String → List String
  | [] => []
  | y :: l => if y = x then l else y :: eraseFirst x l

/-! ## Usage accounting (`Datastore.updateTenantUsage`) -/

/-- One entry of a tenant's usage history (`types.CiaoUsage`); the timestamp
is in nanoseconds (the resolution of `time.Time` and `time.Duration`). -/
structure CiaoUsage where
  vcpu : Int
  memory : Int
  disk : Int
  ts : Int
deriving DecidableEq, Repr

/-- Five minutes in nanoseconds.  The source compares
`time.Since(lastUsage.Timestamp).Minutes() < tenantUsagePeriodMinutes` with
`tenantUsagePeriodMinutes = 5`; the float64 comparison is exact for every
nanosecond count (integers below `2^53` convert exactly and rounding is
monotone around the exactly-representable `3·10^11`), so it holds iff the
nanosecond difference is `< 300000000000`. -/
def tenantUsagePeriod : Int := 300000000000

/-- `Datastore.updateTenantUsageNeeded`: a delta with all three dimensions
zero needs no update (the tenant id argument is unused in the source). -/
def updateTenantUsageNeeded (delta : CiaoUsage) : Bool :=
  !(delta.vcpu == 0 && delta.memory == 0 && delta.disk == 0)

/-- `Datastore.updateTenantUsage` on one tenant's history (the tenant's
`tenantUsage` map entry; a missing entry is the empty history, whose zero
`lastUsage` makes the new entry equal to the delta).  `now` is `time.Now()`
at the call. -/
def updateTenantUsage (hist : List CiaoUsage) (delta : CiaoUsage) (now : Int) :
    List CiaoUsage :=
  if updateTenantUsageNeeded delta = false then hist
  else
    match hist.getLast? with
    | none => hist ++ [⟨delta.vcpu, delta.memory, delta.disk, now⟩]
    | some last =>
      if now - last.ts < tenantUsagePeriod then
        hist.dropLast ++
          [⟨last.vcpu + delta.vcpu, last.memory + delta.memory,
            last.disk + delta.disk, last.ts⟩]
      else
        hist ++
          [⟨last.vcpu + delta.vcpu, last.memory + delta.memory,
            last.disk + delta.disk, now⟩]

/-- The history invariant claimed by the spec: consecutive timestamps are at
least the five-minute period apart. -/
def UsageGap (hist : List CiaoUsage) : Prop :=
  List.Chain' (fun a b => a.ts + tenantUsagePeriod ≤ b.ts) hist

/-- Non-decreasing timestamps. -/
def UsageMono (hist : List CiaoUsage) : Prop :=
  List.Chain' (fun a b => a.ts ≤ b.ts) hist

/-! ## Workload catalog (`Datastore.DeleteWorkload`) -/

/-- `types.Visibility`. -/
inductive Vis where
  | publicV
  | privateV
  | internalV
deriving DecidableEq, Repr

/-- The fields of `types.Workload` that `DeleteWorkload` consults. -/
structure Workload where
  tenantID : String
  vis : Vis
deriving DecidableEq, Repr

/-- The field of `types.Instance` that `DeleteWorkload` consults. -/
structure InstanceRec where
  workloadID : String
deriving DecidableEq, Repr

/-- The caches touched by `Datastore.DeleteWorkload`: the `workloads` map,
the `publicWorkloads` slice, each cached tenant's `workloads` slice and the
`instances` map. -/
structure WlState where
  workloads : List (String × Workload)
  publicWorkloads : List String
  tenantWorkloads : List (String × List String)
  instances : List (String × InstanceRec)
deriving DecidableEq, Repr

/-- `Datastore.DeleteWorkload` (with `dbOK` the stubbed `db.deleteWorkload`
outcome): refuse with `WorkloadInUse` while any cached instance references the
workload; then resolve it, issue the persistent delete, and on success unlink
the id from its visibility list (`publicWorkloads` for a public workload, the
owning tenant's list otherwise) and drop it from `workloads`.  A missing
tenant makes the non-public branch return `ErrTenantNotFound` after the
persistent delete without touching the `workloads` map, exactly as the source
does. -/
def deleteWorkload (st : WlState) (id : String) (dbOK : Bool) :
    Option Err × WlState :=
  if st.instances.any (fun p => p.2.workloadID == id) then (some .workloadInUse, st)
  else
    match lookupKV id st.workloads with
    | none => (some .workloadNotFound, st)
    | some wl =>
      if !dbOK then (some .db, st)
      else if wl.vis = .publicV then
        (none, { st with publicWorkloads := eraseFirst id st.publicWorkloads,
                         workloads := eraseKV id st.workloads })
      else
        match lookupKV wl.tenantID st.tenantWorkloads with
        | none => (some .tenantNotFound, st)
        | some ws =>
          (none, { st with
            tenantWorkloads := insertKV wl.tenantID (eraseFirst id ws)
              st.tenantWorkloads,
            workloads := eraseKV id st.workloads })

/-! ## Volume and attachment engine -/

/-- Volume state (`types.BlockState`): only `Available` and `InUse` matter to
the attachment engine; `other` stands for any further state string. -/
inductive VolState where
  | available
  | inUse
  | other
deriving DecidableEq, Repr

/-- The fields of `types.Volume` the attachment engine reads and writes. -/
structure Volume where
  id : String
  tenantID : String
  state : VolState
deriving DecidableEq, Repr

/-- `types.StorageAttachment` (the generated uuid is the map key). -/
structure StorAttachment where
  instanceID : String
  blockID : String
  ephemeral : Bool
  boot : Bool
deriving DecidableEq, Repr

/-- The caches touched by the volume and attachment engine: `blockDevices`,
each cached tenant's `devices` map, `attachments` and the `instanceVolumes`
secondary index keyed by (instance, volume). -/
structure StorState where
  blockDevices : List (String × Volume)
  tenantDevices : List (String × List (String × Volume))
  attachments : List (String × StorAttachment)
  instanceVolumes : List ((String × String) × String)
deriving DecidableEq, Repr

/-- `Datastore.AddBlockDevice` (with `dbOK` the stubbed
`db.addBlockData`/`db.updateBlockData` outcome): persist, then write the
volume into `blockDevices` and into the owning tenant's `devices` map.  The
source dereferences `ds.tenants[device.TenantID].devices` without a nil
check, so a missing tenant is a nil-pointer panic — embedded as `none`. -/
def addBlockDevice (st : StorState) (device : Volume) (dbOK : Bool) :
    Option (Option Err × StorState) :=
  if !dbOK then some (some .db, st)
  else
    match lookupKV device.tenantID st.tenantDevices with
    | none => none
    | some devs =>
      some (none,
        { st with
          blockDevices := insertKV device.id device st.blockDevices,
          tenantDevices := insertKV device.tenantID (insertKV device.id device devs)
            st.tenantDevices })

/-- `Datastore.UpdateBlockDevice`: `ErrNoBlockData` unless the volume is
cached, else `AddBlockDevice`. -/
def updateBlockDevice (st : StorState) (device : Volume) (dbOK : Bool) :
    Option (Option Err × StorState) :=
  match lookupKV device.id st.blockDevices with
  | none => some (some .noBlockData, st)
  | some _ => addBlockDevice st device dbOK

/-- `Datastore.CreateStorageAttachment` (with `aID` the generated attachment
uuid, `dbAddOK` the stubbed `db.addStorageAttachment` outcome and `dbUpdOK`
the stubbed block-data write): persist the attachment row, fetch the volume
and mark it `InUse` through `UpdateBlockDevice` (on failure the attachment
row gets a compensating `db.deleteStorageAttachment`, which touches no
cache), and only on success insert into `attachments` and `instanceVolumes`.
`none` is the nil-pointer panic inherited from `AddBlockDevice`. -/
def createStorageAttachment (st : StorState) (instanceID volumeID : String)
    (ephemeral boot : Bool) (aID : String) (dbAddOK dbUpdOK : Bool) :
    Option (Option Err × Option StorAttachment × StorState) :=
  let a : StorAttachment := ⟨instanceID, volumeID, ephemeral, boot⟩
  if !dbAddOK then some (some .db, none, st)
  else
    match lookupKV volumeID st.blockDevices with
    | none => some (some .noBlockData, none, st)
    | some bd =>
      match updateBlockDevice st { bd with state := .inUse } dbUpdOK with
      | none => none
      | some (some e, st') => some (some e, none, st')
      | some (none, st') =>
        some (none, some a,
          { st' with
            attachments := insertKV aID a st'.attachments,
            instanceVolumes := insertKV (instanceID, volumeID) aID
              st'.instanceVolumes })

/-- `Datastore.DeleteStorageAttachment` (with `dbOK` the stubbed
`db.deleteStorageAttachment` outcome): persist the deletion, then drop the
attachment from both caches when present.  The volume state is not
touched. -/
def deleteStorageAttachment (st : StorState) (id : String) (dbOK : Bool) :
    Option Err × StorState :=
  if !dbOK then (some .db, st)
  else
    match lookupKV id st.attachments with
    | some a =>
      (none, { st with
        attachments := eraseKV id st.attachments,
        instanceVolumes := eraseKV (a.instanceID, a.blockID) st.instanceVolumes })
    | none => (some .noStorageAttachment, st)

/-! ## Tenant deletion, image deletion, external IP pools -/

/-- Persistent-store operations traced by the embeddings whose claims concern
the write ordering. -/
inductive DbOp where
  | addPool
  | deletePool
  | deleteTenant
deriving DecidableEq, Repr

/-- `Datastore.DeleteTenant` on the tenants cache (tenant payload elided;
`dbOK` is the stubbed `db.deleteTenant` outcome): the entry is deleted from
the cache first and the persistent result returned as is, so a failing
persistent delete leaves the cache deletion committed. -/
def deleteTenantDS (tenants : List (String × Unit)) (id : String) (dbOK : Bool) :
    (Option Err × List (String × Unit)) × List DbOp :=
  match lookupKV id tenants with
  | none => ((some .noTenant, tenants), [])
  | some _ =>
    (((if dbOK then none else some .db), eraseKV id tenants), [.deleteTenant])

/-- The fields of `types.Image` that `DeleteImage` consults. -/
structure Image where
  tenantID : String
  vis : Vis
deriving DecidableEq, Repr

/-- The image caches. -/
structure ImgState where
  images : List (String × Image)
  tenantImages : List (String × List String)
  publicImages : List String
  internalImages : List String
deriving DecidableEq, Repr

/-- The visibility-list and `images`-map removals at the end of
`Datastore.DeleteImage`. -/
def deleteImageLists (st : ImgState) (img : Image) (id : String) : ImgState :=
  let st1 := if img.vis = .internalV then
      { st with internalImages := eraseFirst id st.internalImages } else st
  let st2 := if img.vis = .publicV then
      { st1 with publicImages := eraseFirst id st1.publicImages } else st1
  { st2 with images := eraseKV id st2.images }

/-- `Datastore.DeleteImage`: resolve the image, unlink it from the owning
tenant's list when tenant-scoped (a missing tenant aborts with
`ErrTenantNotFound`), remove it from the visibility lists and from `images`.
The source issues no persistent-store call, so the traced operation list is
empty on every path. -/
def deleteImage (st : ImgState) (id : String) : (Option Err × ImgState) × List DbOp :=
  match lookupKV id st.images with
  | none => ((some .noImage, st), [])
  | some img =>
    if img.tenantID ≠ "" then
      match lookupKV img.tenantID st.tenantImages with
      | none => ((some .tenantNotFound, st), [])
      | some imgs =>
        let st1 := { st with
          tenantImages := insertKV img.tenantID (eraseFirst id imgs) st.tenantImages }
        ((none, deleteImageLists st1 img id), [])
    else
      ((none, deleteImageLists st img id), [])

/-- An external subnet as parsed from its CIDR string: base address and mask
bit count.  The `ExternalSubnet` record id is elided: no claim consults
it. -/
structure Subnet where
  base : Nat
  ones : Nat
deriving DecidableEq, Repr

/-- `net.IPNet.Contains`: the masked address equals the subnet's masked
base. -/
def subContains (s : Subnet) (ip : Nat) : Bool :=
  ip &&& maskOf s.ones == s.base &&& maskOf s.ones

/-- `Datastore.isDuplicateSubnet` (pools lock held): a new subnet is a
duplicate when, for some registered subnet, either one contains the other's
masked base address. -/
def isDuplicateSubnet (ext : List Subnet) (nw : Subnet) : Bool :=
  ext.any (fun s =>
    subContains s (nw.base &&& maskOf nw.ones) ||
      subContains nw (s.base &&& maskOf s.ones))

/-- `Datastore.isDuplicateIP`: the address is covered by a registered subnet
or is already a registered individual IP. -/
def isDuplicateIP (ext : List Subnet) (ips : List Nat) (nw : Nat) : Bool :=
  ext.any (fun s => subContains s nw) || ips.contains nw

/-- One individual pool IP (`types.ExternalIP`, record id elided). -/
structure ExtIP where
  address : Nat
deriving DecidableEq, Repr

/-- `types.Pool`. -/
structure Pool where
  id : String
  name : String
  subnets : List Subnet
  ips : List ExtIP
  totalIPs : Int
  free : Int
deriving DecidableEq, Repr

/-- `types.MappedIP` (the generated uuid elided; the cache key is the
external address). -/
structure MappedIP where
  externalIP : Nat
  internalIP : Nat
  instanceID : String
  tenantID : String
  poolID : String
  poolName : String
deriving DecidableEq, Repr

/-- The external-IP caches: `pools`, `externalSubnets` (registered CIDRs,
numeric), `externalIPs` (registered individual addresses) and `mappedIPs`
keyed by external address. -/
structure PoolsState where
  pools : List (String × Pool)
  externalSubnets : List Subnet
  externalIPs : List Nat
  mappedIPs : List (Nat × MappedIP)
deriving DecidableEq, Repr

/-- The subnet validation loop of `Datastore.AddPool`: each subnet is checked
against `externalSubnets` and registered immediately, so a later rejection
leaves the earlier registrations behind; returns whether all subnets were
accepted, with the resulting `externalSubnets`. -/
def registerSubnets (ext : List Subnet) : List Subnet → Bool × List Subnet
  | [] => (true, ext)
  | s :: rest =>
    if isDuplicateSubnet ext s then (false, ext)
    else registerSubnets (ext ++ [s]) rest

/-- `Datastore.DeletePool` (with `dbOK` the stubbed `db.deletePool` outcome):
refuse while `Free ≠ TotalIPs`; otherwise issue the persistent delete, remove
the pool's subnets and IPs from the registries and the pool from the cache,
and return the persistent error if any — the cache cleanup happens either
way. -/
def deletePool (st : PoolsState) (id : String) (dbOK : Bool) :
    (Option Err × PoolsState) × List DbOp :=
  match lookupKV id st.pools with
  | none => ((some .poolNotFound, st), [])
  | some p =>
    if p.free ≠ p.totalIPs then ((some .poolNotEmpty, st), [])
    else
      let st' := { st with
        externalSubnets := p.subnets.foldl
          (fun e s => e.filter (fun s2 => s2 ≠ s)) st.externalSubnets,
        externalIPs := p.ips.foldl
          (fun e ip => e.filter (fun a => a ≠ ip.address)) st.externalIPs,
        pools := eraseKV id st.pools }
      (((if dbOK then none else some .db), st'), [.deletePool])

/-- The tail of `Datastore.AddPool` after validation: commit the pool to the
cache, then issue `db.addPool`; on persistent failure compensate with
`DeletePool` (ignoring its result) and return the wrapped error. -/
def addPoolCommit (st : PoolsState) (pool : Pool) (dbAddOK dbDelOK : Bool) :
    (Option Err × PoolsState) × List DbOp :=
  let st1 := { st with pools := insertKV pool.id pool st.pools }
  if dbAddOK then ((none, st1), [.addPool])
  else
    let r := deletePool st1 pool.id dbDelOK
    ((some .db, r.1.2), .addPool :: r.2)

/-- `Datastore.AddPool` (with `dbAddOK`/`dbDelOK` the stubbed `db.addPool`
and `db.deletePool` outcomes).  A subnet list is validated-and-registered
subnet by subnet; otherwise an IP list is validated in full and then
registered (the numeric embedding cannot hit the `ParseIP`/`ParseCIDR`
error paths, so validation failures are exactly the duplicate errors). -/
def addPool (st : PoolsState) (pool : Pool) (dbAddOK dbDelOK : Bool) :
    (Option Err × PoolsState) × List DbOp :=
  if pool.subnets ≠ [] then
    match registerSubnets st.externalSubnets pool.subnets with
    | (false, ext') =>
      ((some .duplicateSubnet, { st with externalSubnets := ext' }), [])
    | (true, ext') =>
      addPoolCommit { st with externalSubnets := ext' } pool dbAddOK dbDelOK
  else if pool.ips ≠ [] then
    if pool.ips.any
        (fun ip => isDuplicateIP st.externalSubnets st.externalIPs ip.address) then
      ((some .duplicateIP, st), [])
    else
      addPoolCommit
        { st with externalIPs := st.externalIPs ++ pool.ips.map (fun ip => ip.address) }
        pool dbAddOK dbDelOK
  else addPoolCommit st pool dbAddOK dbDelOK

/-- `Datastore.AddExternalSubnet` (with `dbOK` the stubbed `db.updatePool`
outcome): resolve the pool, reject duplicates and subnets without usable
addresses (`/31`, `/32`), bump the counters on a local copy, persist, and
only then commit the pool copy and register the CIDR. -/
def addExternalSubnet (st : PoolsState) (poolID : String) (sub : Subnet)
    (dbOK : Bool) : Option Err × PoolsState :=
  match lookupKV poolID st.pools with
  | none => (some .poolNotFound, st)
  | some p =>
    if isDuplicateSubnet st.externalSubnets sub then (some .duplicateSubnet, st)
    else
      let newIPs : Int := 2 ^ (32 - sub.ones) - 2
      if newIPs ≤ 0 then (some .subnetTooSmall, st)
      else
        let p' := { p with
          totalIPs := p.totalIPs + newIPs,
          free := p.free + newIPs,
          subnets := p.subnets ++ [sub] }
        if !dbOK then (some .db, st)
        else
          (none, { st with
            pools := insertKV poolID p' st.pools,
            externalSubnets := st.externalSubnets ++ [sub] })

/-- Dotted-decimal rendering of a 32-bit address (`net.IP.String`). -/
def ipStr (ip : Nat) : String :=
  toString ((ip >>> 24) % 256) ++ "." ++ toString ((ip >>> 16) % 256) ++ "." ++
    toString ((ip >>> 8) % 256) ++ "." ++ toString (ip % 256)

/-- Ordered insertion for `sortIPs`. -/
def insertSorted (x : Nat) : List Nat → List Nat
  | [] => [x]
  | y :: l => if ipStr x ≤ ipStr y then x :: y :: l else y :: insertSorted x l

/-- `sort.Strings` on the dotted-decimal addresses, as an insertion sort: the
result is a sorted permutation, which is all the source needs (equal
addresses become adjacent). -/
def sortIPs : List Nat → List Nat
  | [] => []
  | x :: l => insertSorted x (sortIPs l)

/-- The validation loop of `Datastore.AddExternalIPs` over the sorted
addresses: an address equal to the previous one (`lastIP`) or hitting
`isDuplicateIP` is rejected with `ErrDuplicateIP`; accepted addresses are
appended to the local pool copy with the counters bumped.  `none` is the
rejection. -/
def addIPsLoop (ext : List Subnet) (ips : List Nat) :
    Option Nat → Pool → List Nat → Option Pool
  | _, p, [] => some p
  | lastIP, p, ip :: rest =>
    if lastIP = some ip then none
    else if isDuplicateIP ext ips ip then none
    else
      addIPsLoop ext ips (some ip)
        { p with totalIPs := p.totalIPs + 1, free := p.free + 1,
                 ips := p.ips ++ [⟨ip⟩] } rest

/-- `Datastore.AddExternalIPs` (with `dbOK` the stubbed `db.updatePool`
outcome): resolve the pool, sort the addresses, run the validation loop on a
local pool copy, persist, then register every address of the updated copy in
`externalIPs` and commit the copy. -/
def addExternalIPs (st : PoolsState) (poolID : String) (ipsReq : List Nat)
    (dbOK : Bool) : Option Err × PoolsState :=
  match lookupKV poolID st.pools with
  | none => (some .poolNotFound, st)
  | some p =>
    match addIPsLoop st.externalSubnets st.externalIPs none p (sortIPs ipsReq) with
    | none => (some .duplicateIP, st)
    | some p' =>
      if !dbOK then (some .db, st)
      else
        (none,
          { st with
            externalIPs := p'.ips.foldl
              (fun e ip => if e.contains ip.address then e else e ++ [ip.address])
              st.externalIPs,
            pools := insertKV poolID p' st.pools })

/-- The fields of `types.Instance` that `MapExternalIP` reads. -/
structure MapInstance where
  ipAddress : Nat
  tenantID : String
deriving DecidableEq, Repr

/-- Result of `Datastore.MapExternalIP`. -/
structure MapResult where
  err : Option Err
  val : Option MappedIP
  st : PoolsState
deriving DecidableEq, Repr

/-- The per-subnet scan of `Datastore.MapExternalIP`: starting just after the
masked base (`incrementIP` on the 4-byte address, hence the `% 2^32`) and
walking while the subnet contains the address, return the first address with
no `mappedIPs` entry.  The fuel is the number of contained addresses still to
visit, `2^(32-ones) - 1` at entry. -/
def subnetScan (mapped : List (Nat × MappedIP)) : Nat → Nat → Option Nat
  | _, 0 => none
  | x, k+1 =>
    if (lookupKV x mapped).isSome then subnetScan mapped ((x + 1) % 2 ^ 32) k
    else some x

/-- First free address over the pool's subnets, in order. -/
def findFreeInSubnets (mapped : List (Nat × MappedIP)) : List Subnet → Option Nat
  | [] => none
  | s :: rest =>
    match subnetScan mapped (((s.base &&& maskOf s.ones) + 1) % 2 ^ 32)
        (2 ^ (32 - s.ones) - 1) with
    | some x => some x
    | none => findFreeInSubnets mapped rest

/-- First free address over the pool's individual IPs, in order. -/
def findFreeInIPs (mapped : List (Nat × MappedIP)) : List ExtIP → Option Nat
  | [] => none
  | ip :: rest =>
    if (lookupKV ip.address mapped).isSome then findFreeInIPs mapped rest
    else some ip.address

/-- The allocation tail of `Datastore.MapExternalIP` once a free address is
found: build the mapping, decrement `Free` on the local pool copy, persist
the mapping (`dbAddOK`), commit it to `mappedIPs`, persist the pool row
(`dbUpdOK`), and only then commit the pool copy.  A failing `updatePool`
therefore returns an error with the `MappedIP` already committed to the
cache. -/
def mapCommit (st : PoolsState) (pool : Pool) (inst : MapInstance)
    (instanceID : String) (x : Nat) (dbAddOK dbUpdOK : Bool) : MapResult :=
  let m : MappedIP := ⟨x, inst.ipAddress, instanceID, inst.tenantID, pool.id, pool.name⟩
  let pool' := { pool with free := pool.free - 1 }
  if !dbAddOK then ⟨some .db, none, st⟩
  else
    let st1 := { st with mappedIPs := insertKV x m st.mappedIPs }
    if !dbUpdOK then ⟨some .db, none, st1⟩
    else ⟨none, some m, { st1 with pools := insertKV pool.id pool' st1.pools }⟩

/-- `Datastore.MapExternalIP` (with `inst` the `GetInstance` result and
`dbAddOK`/`dbUpdOK` the stubbed `db.addMappedIP` / `db.updatePool` outcomes):
resolve instance and pool, refuse an empty pool, scan the subnets then the
individual IPs for the first unmapped address, and commit via `mapCommit`;
exhausting both lists falls through to `ErrPoolEmpty`. -/
def mapExternalIP (st : PoolsState) (poolID instanceID : String)
    (inst : Option MapInstance) (dbAddOK dbUpdOK : Bool) : MapResult :=
  match inst with
  | none => ⟨some .instanceNotFound, none, st⟩
  | some inst =>
    match lookupKV poolID st.pools with
    | none => ⟨some .poolNotFound, none, st⟩
    | some pool =>
      if pool.free = 0 then ⟨some .poolEmpty, none, st⟩
      else
        match findFreeInSubnets st.mappedIPs pool.subnets with
        | some x => mapCommit st pool inst instanceID x dbAddOK dbUpdOK
        | none =>
          match findFreeInIPs st.mappedIPs pool.ips with
          | some x => mapCommit st pool inst instanceID x dbAddOK dbUpdOK
          | none => ⟨some .poolEmpty, none, st⟩


/-! ## Lemmas about the canonical map operations -/

theorem hmInsert_cons (a b : Nat) (l : HostMap) :
    hmInsert a (b :: l) =
      if a < b then a :: b :: l else if a = b then b :: l else b :: hmInsert a l := rfl

theorem hmErase_cons (a b : Nat) (l : HostMap) :
    hmErase a (b :: l) = if b = a then hmErase a l else b :: hmErase a l := rfl

theorem netFind_cons (s k : Nat) (v : HostMap) (l : Net) :
    netFind s ((k, v) :: l) = if k = s then some v else netFind s l := rfl

theorem netInsert_cons (s k : Nat) (hm v : HostMap) (l : Net) :
    netInsert s hm ((k, v) :: l) =
      if s < k then (s, hm) :: (k, v) :: l
      else if s = k then (s, hm) :: l
      else (k, v) :: netInsert s hm l := rfl

theorem netErase_cons (s k : Nat) (v : HostMap) (l : Net) :
    netErase s ((k, v) :: l) =
      if k = s then netErase s l else (k, v) :: netErase s l := rfl

theorem mem_hmInsert (a b : Nat) (l : HostMap) : b ∈ hmInsert a l ↔ b = a ∨ b ∈ l := by
  induction l with
  | nil => simp [hmInsert]
  | cons c l ih =>
    rcases Nat.lt_trichotomy a c with h | h | h
    · rw [hmInsert_cons, if_pos h]
      simp [List.mem_cons]
    · subst h
      rw [hmInsert_cons, if_neg (Nat.lt_irrefl a), if_pos rfl]
      simp only [List.mem_cons]
      tauto
    · have h1 : ¬ a < c := by omega
      have h2 : ¬ a = c := by omega
      rw [hmInsert_cons, if_neg h1, if_neg h2]
      simp only [List.mem_cons, ih]
      tauto

theorem hmInsert_ne_nil (a : Nat) (l : HostMap) : hmInsert a l ≠ [] := by
  cases l with
  | nil => simp [hmInsert]
  | cons c l =>
    rcases Nat.lt_trichotomy a c with h | h | h
    · rw [hmInsert_cons, if_pos h]
      simp
    · subst h
      rw [hmInsert_cons, if_neg (Nat.lt_irrefl a), if_pos rfl]
      simp
    · have h1 : ¬ a < c := by omega
      have h2 : ¬ a = c := by omega
      rw [hmInsert_cons, if_neg h1, if_neg h2]
      simp

theorem pairwise_hmInsert (a : Nat) (l : HostMap) (h : l.Pairwise (· < ·)) :
    (hmInsert a l).Pairwise (· < ·) := by
  induction l with
  | nil => simp [hmInsert]
  | cons c l ih =>
    rw [List.pairwise_cons] at h
    rcases Nat.lt_trichotomy a c with h1 | h1 | h1
    · rw [hmInsert_cons, if_pos h1, List.pairwise_cons]
      constructor
      · intro b hb
        rcases List.mem_cons.mp hb with rfl | hb
        · exact h1
        · exact Nat.lt_trans h1 (h.1 b hb)
      · rw [List.pairwise_cons]
        exact h
    · subst h1
      rw [hmInsert_cons, if_neg (Nat.lt_irrefl a), if_pos rfl, List.pairwise_cons]
      exact h
    · have hn1 : ¬ a < c := by omega
      have hn2 : ¬ a = c := by omega
      rw [hmInsert_cons, if_neg hn1, if_neg hn2, List.pairwise_cons]
      constructor
      · intro b hb
        rcases (mem_hmInsert a b l).mp hb with rfl | hb
        · exact h1
        · exact h.1 b hb
      · exact ih h.2

theorem mem_hmErase (a b : Nat) (l : HostMap) : b ∈ hmErase a l ↔ b ∈ l ∧ b ≠ a := by
  induction l with
  | nil => simp [hmErase]
  | cons c l ih =>
    by_cases h : c = a
    · subst h
      rw [hmErase_cons, if_pos rfl]
      simp only [List.mem_cons, ih]
      tauto
    · rw [hmErase_cons, if_neg h]
      simp only [List.mem_cons, ih]
      constructor
      · rintro (rfl | ⟨hb, hba⟩)
        · exact ⟨Or.inl rfl, h⟩
        · exact ⟨Or.inr hb, hba⟩
      · rintro ⟨rfl | hb, hba⟩
        · exact Or.inl rfl
        · exact Or.inr ⟨hb, hba⟩

theorem mem_of_mem_hmErase (a b : Nat) (l : HostMap) (h : b ∈ hmErase a l) : b ∈ l :=
  ((mem_hmErase a b l).mp h).1

theorem pairwise_hmErase (a : Nat) (l : HostMap) (h : l.Pairwise (· < ·)) :
    (hmErase a l).Pairwise (· < ·) := by
  induction l with
  | nil => simp [hmErase]
  | cons c l ih =>
    rw [List.pairwise_cons] at h
    by_cases h1 : c = a
    · rw [hmErase_cons, if_pos h1]
      exact ih h.2
    · rw [hmErase_cons, if_neg h1, List.pairwise_cons]
      exact ⟨fun b hb => h.1 b (mem_of_mem_hmErase a b l hb), ih h.2⟩

/-- Extensionality: two strictly sorted lists with the same members are
equal. -/
theorem hm_ext (l : HostMap) : ∀ l' : HostMap, l.Pairwise (· < ·) →
    l'.Pairwise (· < ·) → (∀ a, a ∈ l ↔ a ∈ l') → l = l' := by
  induction l with
  | nil =>
    intro l' _ _ h
    cases l' with
    | nil => rfl
    | cons b l' => exact absurd ((h b).mpr (List.mem_cons_self b l')) (by simp)
  | cons a l ih =>
    intro l' hl hl' h
    cases l' with
    | nil => exact absurd ((h a).mp (List.mem_cons_self a l)) (by simp)
    | cons b l' =>
      rw [List.pairwise_cons] at hl hl'
      have hab : a = b := by
        rcases List.mem_cons.mp ((h a).mp (List.mem_cons_self a l)) with h1 | h1
        · exact h1
        rcases List.mem_cons.mp ((h b).mpr (List.mem_cons_self b l')) with h2 | h2
        · exact h2.symm
        have hba := hl'.1 a h1
        have hab := hl.1 b h2
        omega
      subst hab
      have htail : ∀ c, c ∈ l ↔ c ∈ l' := by
        intro c
        constructor
        · intro hc
          rcases List.mem_cons.mp ((h c).mp (List.mem_cons_of_mem a hc)) with rfl | h1
          · exact absurd (hl.1 c hc) (Nat.lt_irrefl c)
          · exact h1
        · intro hc
          rcases List.mem_cons.mp ((h c).mpr (List.mem_cons_of_mem a hc)) with rfl | h1
          · exact absurd (hl'.1 c hc) (Nat.lt_irrefl c)
          · exact h1
      rw [ih l' hl.2 hl'.2 htail]

theorem netFind_netInsert_self (s : Nat) (hm : HostMap) (n : Net) :
    netFind s (netInsert s hm n) = some hm := by
  induction n with
  | nil => simp [netInsert, netFind]
  | cons q n ih =>
    obtain ⟨k, v⟩ := q
    rcases Nat.lt_trichotomy s k with h | h | h
    · rw [netInsert_cons, if_pos h, netFind_cons, if_pos rfl]
    · subst h
      rw [netInsert_cons, if_neg (Nat.lt_irrefl s), if_pos rfl, netFind_cons, if_pos rfl]
    · have h1 : ¬ s < k := by omega
      have h2 : ¬ s = k := by omega
      have h3 : ¬ k = s := by omega
      rw [netInsert_cons, if_neg h1, if_neg h2, netFind_cons, if_neg h3]
      exact ih

theorem netFind_netInsert_ne (s s' : Nat) (hm : HostMap) (n : Net) (hss : s' ≠ s) :
    netFind s' (netInsert s hm n) = netFind s' n := by
  have hss2 : ¬ s = s' := fun h => hss h.symm
  induction n with
  | nil =>
    simp only [netInsert, netFind]
    rw [if_neg hss2]
  | cons q n ih =>
    obtain ⟨k, v⟩ := q
    rcases Nat.lt_trichotomy s k with h | h | h
    · rw [netInsert_cons, if_pos h, netFind_cons, if_neg hss2]
    · subst h
      rw [netInsert_cons, if_neg (Nat.lt_irrefl s), if_pos rfl, netFind_cons, if_neg hss2,
        netFind_cons, if_neg hss2]
    · have h1 : ¬ s < k := by omega
      have h2 : ¬ s = k := by omega
      rw [netInsert_cons, if_neg h1, if_neg h2, netFind_cons, netFind_cons]
      by_cases h3 : k = s'
      · rw [if_pos h3, if_pos h3]
      · rw [if_neg h3, if_neg h3]
        exact ih

theorem netFind_netErase_self (s : Nat) (n : Net) : netFind s (netErase s n) = none := by
  induction n with
  | nil => simp [netErase, netFind]
  | cons q n ih =>
    obtain ⟨k, v⟩ := q
    by_cases h : k = s
    · rw [netErase_cons, if_pos h]
      exact ih
    · rw [netErase_cons, if_neg h, netFind_cons, if_neg h]
      exact ih

theorem netFind_netErase_ne (s s' : Nat) (n : Net) (hss : s' ≠ s) :
    netFind s' (netErase s n) = netFind s' n := by
  induction n with
  | nil => simp [netErase, netFind]
  | cons q n ih =>
    obtain ⟨k, v⟩ := q
    by_cases h : k = s
    · subst h
      have h2 : ¬ k = s' := fun hh => hss hh.symm
      rw [netErase_cons, if_pos rfl, netFind_cons, if_neg h2]
      exact ih
    · rw [netErase_cons, if_neg h, netFind_cons, netFind_cons]
      by_cases h3 : k = s'
      · rw [if_pos h3, if_pos h3]
      · rw [if_neg h3, if_neg h3]
        exact ih

theorem mem_netInsert (s : Nat) (hm : HostMap) (n : Net) (p : Nat × HostMap)
    (h : p ∈ netInsert s hm n) : p = (s, hm) ∨ p ∈ n := by
  induction n with
  | nil => simpa [netInsert] using h
  | cons q n ih =>
    obtain ⟨k, v⟩ := q
    rcases Nat.lt_trichotomy s k with h1 | h1 | h1
    · rw [netInsert_cons, if_pos h1] at h
      rcases List.mem_cons.mp h with rfl | h
      · exact Or.inl rfl
      · exact Or.inr h
    · subst h1
      rw [netInsert_cons, if_neg (Nat.lt_irrefl s), if_pos rfl] at h
      rcases List.mem_cons.mp h with rfl | h
      · exact Or.inl rfl
      · exact Or.inr (List.mem_cons_of_mem _ h)
    · have hn1 : ¬ s < k := by omega
      have hn2 : ¬ s = k := by omega
      rw [netInsert_cons, if_neg hn1, if_neg hn2] at h
      rcases List.mem_cons.mp h with rfl | h
      · exact Or.inr (List.mem_cons_self _ _)
      · rcases ih h with h | h
        · exact Or.inl h
        · exact Or.inr (List.mem_cons_of_mem _ h)

theorem mem_netErase (s : Nat) (n : Net) (p : Nat × HostMap) (h : p ∈ netErase s n) :
    p ∈ n := by
  induction n with
  | nil => simp [netErase] at h
  | cons q n ih =>
    obtain ⟨k, v⟩ := q
    by_cases h1 : k = s
    · rw [netErase_cons, if_pos h1] at h
      exact List.mem_cons_of_mem _ (ih h)
    · rw [netErase_cons, if_neg h1] at h
      rcases List.mem_cons.mp h with rfl | h
      · exact List.mem_cons_self _ _
      · exact List.mem_cons_of_mem _ (ih h)

theorem keys_pairwise_netInsert (s : Nat) (hm : HostMap) (n : Net)
    (h : n.Pairwise (fun p q => p.1 < q.1)) :
    (netInsert s hm n).Pairwise (fun p q => p.1 < q.1) := by
  induction n with
  | nil => simp [netInsert]
  | cons q n ih =>
    obtain ⟨k, v⟩ := q
    rw [List.pairwise_cons] at h
    rcases Nat.lt_trichotomy s k with h1 | h1 | h1
    · rw [netInsert_cons, if_pos h1, List.pairwise_cons]
      constructor
      · intro p hp
        rcases List.mem_cons.mp hp with rfl | hp
        · exact h1
        · exact Nat.lt_trans h1 (h.1 p hp)
      · rw [List.pairwise_cons]
        exact h
    · subst h1
      rw [netInsert_cons, if_neg (Nat.lt_irrefl s), if_pos rfl, List.pairwise_cons]
      exact h
    · have hn1 : ¬ s < k := by omega
      have hn2 : ¬ s = k := by omega
      rw [netInsert_cons, if_neg hn1, if_neg hn2, List.pairwise_cons]
      constructor
      · intro p hp
        rcases mem_netInsert s hm n p hp with rfl | hp
        · exact h1
        · exact h.1 p hp
      · exact ih h.2

theorem keys_pairwise_netErase (s : Nat) (n : Net)
    (h : n.Pairwise (fun p q => p.1 < q.1)) :
    (netErase s n).Pairwise (fun p q => p.1 < q.1) := by
  induction n with
  | nil => simp [netErase]
  | cons q n ih =>
    obtain ⟨k, v⟩ := q
    rw [List.pairwise_cons] at h
    by_cases h1 : k = s
    · rw [netErase_cons, if_pos h1]
      exact ih h.2
    · rw [netErase_cons, if_neg h1, List.pairwise_cons]
      exact ⟨fun p hp => h.1 p (mem_netErase s n p hp), ih h.2⟩

theorem netFind_mem (s : Nat) (n : Net) (hm : HostMap) : netFind s n = some hm →
    (s, hm) ∈ n := by
  induction n with
  | nil => intro h; simp [netFind] at h
  | cons q n ih =>
    obtain ⟨k, v⟩ := q
    intro h
    by_cases h1 : k = s
    · subst h1
      rw [netFind_cons, if_pos rfl] at h
      cases h
      exact List.mem_cons_self _ _
    · rw [netFind_cons, if_neg h1] at h
      exact List.mem_cons_of_mem _ (ih h)

/-- Extensionality for the outer map: equal lookups and sorted keys force
equal association lists. -/
theorem net_ext (n : Net) : ∀ n' : Net, n.Pairwise (fun p q => p.1 < q.1) →
    n'.Pairwise (fun p q => p.1 < q.1) → (∀ s, netFind s n = netFind s n') → n = n' := by
  induction n with
  | nil =>
    intro n' _ _ h
    cases n' with
    | nil => rfl
    | cons q n' =>
      obtain ⟨k, v⟩ := q
      have h2 := h k
      rw [netFind_cons, if_pos rfl] at h2
      simp [netFind] at h2
  | cons p n ih =>
    intro n' hn hn' h
    obtain ⟨k, v⟩ := p
    cases n' with
    | nil =>
      have h2 := h k
      rw [netFind_cons, if_pos rfl] at h2
      simp [netFind] at h2
    | cons q n' =>
      obtain ⟨k', v'⟩ := q
      rw [List.pairwise_cons] at hn hn'
      have hkk : k = k' := by
        by_contra hne
        have h1 := h k
        have h2 := h k'
        rw [netFind_cons, if_pos rfl, netFind_cons, if_neg (fun hh => hne hh.symm)] at h1
        rw [netFind_cons, if_neg hne, netFind_cons, if_pos rfl] at h2
        have hmem1 : (k, v) ∈ n' := netFind_mem k n' v h1.symm
        have hmem2 : (k', v') ∈ n := netFind_mem k' n v' h2
        have e1 := hn'.1 _ hmem1
        have e2 := hn.1 _ hmem2
        simp only at e1 e2
        omega
      subst hkk
      have hvv : v = v' := by
        have h2 := h k
        rw [netFind_cons, if_pos rfl, netFind_cons, if_pos rfl] at h2
        cases h2
        rfl
      subst hvv
      have htail : ∀ s, netFind s n = netFind s n' := by
        intro s
        by_cases hs : k = s
        · subst hs
          have e1 : netFind k n = none := by
            cases he : netFind k n with
            | none => rfl
            | some w =>
              have := hn.1 _ (netFind_mem k n w he)
              simp at this
          have e2 : netFind k n' = none := by
            cases he : netFind k n' with
            | none => rfl
            | some w =>
              have := hn'.1 _ (netFind_mem k n' w he)
              simp at this
          rw [e1, e2]
        · have h2 := h s
          rw [netFind_cons, if_neg hs, netFind_cons, if_neg hs] at h2
          exact h2
      rw [ih n' hn.2 hn'.2 htail]

theorem netInsert_netInsert (s : Nat) (hm hm' : HostMap) (n : Net) :
    netInsert s hm' (netInsert s hm n) = netInsert s hm' n := by
  induction n with
  | nil => simp [netInsert, Nat.lt_irrefl]
  | cons q n ih =>
    obtain ⟨k, v⟩ := q
    rcases Nat.lt_trichotomy s k with h1 | h1 | h1
    · rw [netInsert_cons, if_pos h1, netInsert_cons, if_neg (Nat.lt_irrefl s), if_pos rfl,
        netInsert_cons, if_pos h1]
    · subst h1
      rw [netInsert_cons, if_neg (Nat.lt_irrefl s), if_pos rfl,
        netInsert_cons, if_neg (Nat.lt_irrefl s), if_pos rfl,
        netInsert_cons, if_neg (Nat.lt_irrefl s), if_pos rfl]
    · have hn1 : ¬ s < k := by omega
      have hn2 : ¬ s = k := by omega
      rw [netInsert_cons, if_neg hn1, if_neg hn2, netInsert_cons, if_neg hn1, if_neg hn2,
        netInsert_cons, if_neg hn1, if_neg hn2, ih]

end Ciao

namespace Ciao

/-! ## The scan invariant and the rollback argument -/

theorem hosts_eq (n : Net) (s : Nat) (hm : HostMap) (h : netFind s n = some hm) :
    hosts n s = hm := by
  rw [hosts, h]
  rfl

theorem hosts_eq_nil (n : Net) (s : Nat) (h : netFind s n = none) : hosts n s = [] := by
  rw [hosts, h]
  rfl

theorem hosts_pairwise (n : Net) (h : NetOk n) (s : Nat) :
    (hosts n s).Pairwise (· < ·) := by
  cases he : netFind s n with
  | none => rw [hosts_eq_nil n s he]; simp
  | some hm =>
    rw [hosts_eq n s hm he]
    exact h.2 (s, hm) (netFind_mem s n hm he)

theorem isSome_of_mem_hosts (n : Net) (s a : Nat) (h : a ∈ hosts n s) :
    (netFind s n).isSome := by
  cases he : netFind s n with
  | none => rw [hosts_eq_nil n s he] at h; simp at h
  | some hm => simp

theorem evolved_init (n : Net) (hok : NetOk n) (hne : NoEmpty n) : Evolved n n [] := by
  refine ⟨hok, ?_, ?_, ?_, ?_, hne⟩
  · intro s a
    simp
  · intro c hc
    simp at hc
  · exact List.nodup_nil
  · intro s
    simp

theorem evolved_mark (net₀ net : Net) (cs : List TenantIP) (s addr : Nat)
    (E : Evolved net₀ net cs) (hfree : addr ∉ hosts net s) :
    Evolved net₀ (netInsert s (hmInsert addr (hosts net s)) net)
      (cs ++ [⟨s, addr⟩]) := by
  refine ⟨⟨?_, ?_⟩, ?_, ?_, ?_, ?_, ?_⟩
  · exact keys_pairwise_netInsert _ _ _ E.ok.1
  · intro p hp
    rcases mem_netInsert _ _ _ _ hp with rfl | hp
    · exact pairwise_hmInsert _ _ (hosts_pairwise net E.ok s)
    · exact E.ok.2 p hp
  · intro s' a
    by_cases hs : s' = s
    · subst hs
      rw [hosts_eq _ _ _ (netFind_netInsert_self s' _ net), mem_hmInsert]
      rw [E.mem s' a]
      constructor
      · rintro (rfl | h | h)
        · exact Or.inr (List.mem_append.mpr (Or.inr (List.mem_singleton.mpr rfl)))
        · exact Or.inl h
        · exact Or.inr (List.mem_append.mpr (Or.inl h))
      · rintro (h | h)
        · exact Or.inr (Or.inl h)
        · rcases List.mem_append.mp h with h | h
          · exact Or.inr (Or.inr h)
          · have h2 := List.mem_singleton.mp h
            injection h2 with h3 h4
            exact Or.inl h4
    · rw [hosts, netFind_netInsert_ne s s' _ net hs, ← hosts, E.mem s' a]
      constructor
      · rintro (h | h)
        · exact Or.inl h
        · exact Or.inr (List.mem_append.mpr (Or.inl h))
      · rintro (h | h)
        · exact Or.inl h
        · rcases List.mem_append.mp h with h | h
          · exact Or.inr h
          · have h2 := List.mem_singleton.mp h
            injection h2 with h3 h4
            exact absurd h3 hs
  · intro c hc
    rcases List.mem_append.mp hc with hc | hc
    · exact E.fresh c hc
    · rcases List.mem_singleton.mp hc with rfl
      intro hmem
      exact hfree ((E.mem s addr).mpr (Or.inl hmem))
  · rw [List.nodup_append]
    refine ⟨E.nodup, List.nodup_singleton _, ?_⟩
    intro c hc hc2
    rcases List.mem_singleton.mp hc2 with rfl
    exact hfree ((E.mem s addr).mpr (Or.inr hc))
  · intro s'
    by_cases hs : s' = s
    · subst hs
      rw [netFind_netInsert_self]
      constructor
      · intro _
        exact Or.inr ⟨⟨s', addr⟩, List.mem_append.mpr (Or.inr (List.mem_singleton.mpr rfl)), rfl⟩
      · intro _
        simp
    · rw [netFind_netInsert_ne s s' _ net hs, E.present s']
      constructor
      · rintro (h | ⟨c, hc, rfl⟩)
        · exact Or.inl h
        · exact Or.inr ⟨c, List.mem_append.mpr (Or.inl hc), rfl⟩
      · rintro (h | ⟨c, hc, rfl⟩)
        · exact Or.inl h
        · rcases List.mem_append.mp hc with hc | hc
          · exact Or.inr ⟨c, hc, rfl⟩
          · rcases List.mem_singleton.mp hc with rfl
            exact absurd rfl hs
  · intro p hp
    rcases mem_netInsert _ _ _ _ hp with rfl | hp
    · exact hmInsert_ne_nil _ _
    · exact E.noEmptyN p hp

end Ciao

namespace Ciao

theorem scanHosts_evolved (net₀ : Net) (s startA : Nat) (num : Int) :
    ∀ k host net hc addrs claims, Evolved net₀ net claims →
      Evolved net₀ (scanHosts s startA num k host net hc addrs claims).netOf
        (scanHosts s startA num k host net hc addrs claims).claimsOf := by
  intro k
  induction k with
  | zero =>
    intro host net hc addrs claims E
    simpa [scanHosts, ScanOut.netOf, ScanOut.claimsOf] using E
  | succ k ih =>
    intro host net hc addrs claims E
    by_cases hmem : (startA + host) ∈ hosts net s
    · simp only [scanHosts, if_pos hmem]
      exact ih (host+1) net hc addrs claims E
    · by_cases hnum : ((hc : Int) + 1) = num
      · simp only [scanHosts, if_neg hmem, if_pos hnum, ScanOut.netOf, ScanOut.claimsOf]
        exact evolved_mark net₀ net claims s (startA + host) E hmem
      · simp only [scanHosts, if_neg hmem, if_neg hnum]
        exact ih (host+1) _ (hc+1) _ _ (evolved_mark net₀ net claims s (startA + host) E hmem)

theorem scanHosts_evolved_fresh (net₀ : Net) (s startA : Nat) (num : Int)
    (k : Nat) (net : Net) (hc : Nat) (addrs : List Nat) (claims : List TenantIP)
    (E : Evolved net₀ net claims) (habs : netFind s net = none) (hk : 1 ≤ k) :
    Evolved net₀ (scanHosts s startA num k 2 (netInsert s [] net) hc addrs claims).netOf
      (scanHosts s startA num k 2 (netInsert s [] net) hc addrs claims).claimsOf := by
  obtain ⟨k, rfl⟩ : ∃ k', k = k' + 1 := ⟨k - 1, by omega⟩
  have e1 : hosts (netInsert s [] net) s = [] :=
    hosts_eq _ _ _ (netFind_netInsert_self s [] net)
  have e0 : hosts net s = [] := hosts_eq_nil net s habs
  have hmem : ¬ ((startA + 2) ∈ hosts (netInsert s [] net) s) := by
    rw [e1]
    simp
  have hcollapse :
      netInsert s (hmInsert (startA + 2) (hosts (netInsert s [] net) s)) (netInsert s [] net)
        = netInsert s (hmInsert (startA + 2) (hosts net s)) net := by
    rw [e1, e0, netInsert_netInsert]
  have E' : Evolved net₀ (netInsert s (hmInsert (startA + 2) (hosts net s)) net)
      (claims ++ [⟨s, startA + 2⟩]) := by
    apply evolved_mark net₀ net claims s (startA + 2) E
    rw [e0]
    simp
  by_cases hnum : ((hc : Int) + 1) = num
  · simp only [scanHosts, if_neg hmem, if_pos hnum, ScanOut.netOf, ScanOut.claimsOf]
    rw [hcollapse]
    exact E'
  · simp only [scanHosts, if_neg hmem, if_neg hnum]
    rw [hcollapse]
    exact scanHosts_evolved net₀ s startA num k 3 _ (hc+1) _ _ E'

theorem allocScan_evolved (net₀ : Net) (endA mask hostBits : Nat) (num : Int)
    (hHB : 2 ≤ hostBits) :
    ∀ fuel start net hc addrs claims, Evolved net₀ net claims →
      Evolved net₀ (allocScan endA mask hostBits num fuel start net hc addrs claims).netOf
        (allocScan endA mask hostBits num fuel start net hc addrs claims).claimsOf := by
  intro fuel
  induction fuel with
  | zero =>
    intro start net hc addrs claims E
    simpa [allocScan, AllocOut.netOf, AllocOut.claimsOf] using E
  | succ fuel ih =>
    intro start net hc addrs claims E
    by_cases hend : endA ≤ start
    · simp only [allocScan, if_pos hend, AllocOut.netOf, AllocOut.claimsOf]
      exact E
    · have hk : 1 ≤ 2 ^ hostBits - 1 - 2 := by
        have h4 : 2 ^ 2 ≤ 2 ^ hostBits := Nat.pow_le_pow_right (by omega) hHB
        omega
      cases he : netFind (start &&& mask) net with
      | none =>
        simp only [allocScan, if_neg hend, he]
        have SE := scanHosts_evolved_fresh net₀ (start &&& mask) start num
          (2 ^ hostBits - 1 - 2) net hc addrs claims E he hk
        cases hs : scanHosts (start &&& mask) start num (2 ^ hostBits - 1 - 2) 2
            (netInsert (start &&& mask) [] net) hc addrs claims with
        | hitNum n a c =>
          rw [hs] at SE
          simpa [AllocOut.netOf, AllocOut.claimsOf, ScanOut.netOf, ScanOut.claimsOf] using SE
        | more n hc' a c =>
          rw [hs] at SE
          simp only [ScanOut.netOf, ScanOut.claimsOf] at SE
          exact ih (start + 2 ^ hostBits) n hc' a c SE
      | some hm =>
        simp only [allocScan, if_neg hend, he]
        have SE := scanHosts_evolved net₀ (start &&& mask) start num
          (2 ^ hostBits - 1 - 2) 2 net hc addrs claims E
        cases hs : scanHosts (start &&& mask) start num (2 ^ hostBits - 1 - 2) 2
            net hc addrs claims with
        | hitNum n a c =>
          rw [hs] at SE
          simpa [AllocOut.netOf, AllocOut.claimsOf, ScanOut.netOf, ScanOut.claimsOf] using SE
        | more n hc' a c =>
          rw [hs] at SE
          simp only [ScanOut.netOf, ScanOut.claimsOf] at SE
          exact ih (start + 2 ^ hostBits) n hc' a c SE

end Ciao

namespace Ciao

theorem evolved_cleanOne (net₀ net : Net) (e : TenantIP) (rest : List TenantIP)
    (h₀ne : NoEmpty net₀) (E : Evolved net₀ net (e :: rest)) :
    Evolved net₀ (cleanOne net e) rest := by
  have hps : (netFind e.subnet net).isSome :=
    (E.present e.subnet).mpr (Or.inr ⟨e, List.mem_cons_self e rest, rfl⟩)
  obtain ⟨hm, he⟩ : ∃ hm, netFind e.subnet net = some hm := by
    cases hfind : netFind e.subnet net with
    | none => rw [hfind] at hps; simp at hps
    | some hm => exact ⟨hm, rfl⟩
  have hhosts : hosts net e.subnet = hm := hosts_eq _ _ _ he
  have hmemE : ∀ a, a ∈ hm ↔
      (a ∈ hosts net₀ e.subnet ∨ (⟨e.subnet, a⟩ : TenantIP) ∈ e :: rest) := by
    intro a
    rw [← hhosts]
    exact E.mem e.subnet a
  have hEhost : e.host ∉ hosts net₀ e.subnet := E.fresh e (List.mem_cons_self e rest)
  have hEnotin : e ∉ rest := (List.nodup_cons.mp E.nodup).1
  have hrestnodup : rest.Nodup := (List.nodup_cons.mp E.nodup).2
  have hmem' : ∀ a, a ∈ hmErase e.host hm ↔
      (a ∈ hosts net₀ e.subnet ∨ (⟨e.subnet, a⟩ : TenantIP) ∈ rest) := by
    intro a
    rw [mem_hmErase]
    constructor
    · rintro ⟨ha, hne⟩
      rcases (hmemE a).mp ha with h | h
      · exact Or.inl h
      · rcases List.mem_cons.mp h with h | h
        · exact absurd (congrArg TenantIP.host h) hne
        · exact Or.inr h
    · intro h
      have hne : a ≠ e.host := by
        rintro rfl
        rcases h with h | h
        · exact hEhost h
        · apply hEnotin
          have he2 : (⟨e.subnet, e.host⟩ : TenantIP) = e := rfl
          rwa [he2] at h
      refine ⟨?_, hne⟩
      apply (hmemE a).mpr
      rcases h with h | h
      · exact Or.inl h
      · exact Or.inr (List.mem_cons_of_mem e h)
  have hiffmem : ∀ s a, s ≠ e.subnet →
      ((a ∈ hosts net₀ s ∨ (⟨s, a⟩ : TenantIP) ∈ e :: rest) ↔
        (a ∈ hosts net₀ s ∨ (⟨s, a⟩ : TenantIP) ∈ rest)) := by
    intro s a hs
    constructor
    · rintro (h | h)
      · exact Or.inl h
      · rcases List.mem_cons.mp h with h | h
        · exact absurd (congrArg TenantIP.subnet h) hs
        · exact Or.inr h
    · rintro (h | h)
      · exact Or.inl h
      · exact Or.inr (List.mem_cons_of_mem e h)
  have hiffpres : ∀ s, s ≠ e.subnet →
      (((netFind s net₀).isSome = true ∨ ∃ c ∈ e :: rest, TenantIP.subnet c = s) ↔
        ((netFind s net₀).isSome = true ∨ ∃ c ∈ rest, TenantIP.subnet c = s)) := by
    intro s hs
    constructor
    · rintro (h | ⟨c, hc, rfl⟩)
      · exact Or.inl h
      · rcases List.mem_cons.mp hc with rfl | hc
        · exact absurd rfl hs
        · exact Or.inr ⟨c, hc, rfl⟩
    · rintro (h | ⟨c, hc, rfl⟩)
      · exact Or.inl h
      · exact Or.inr ⟨c, List.mem_cons_of_mem e hc, rfl⟩
  have hclean : cleanOne net e =
      if hmErase e.host hm = [] then netErase e.subnet net
      else netInsert e.subnet (hmErase e.host hm) net := by
    simp [cleanOne, he]
  by_cases hnil : hmErase e.host hm = []
  · rw [hclean, if_pos hnil]
    refine ⟨⟨keys_pairwise_netErase _ _ E.ok.1, ?_⟩, ?_, ?_, hrestnodup, ?_, ?_⟩
    · intro p hp
      exact E.ok.2 p (mem_netErase _ _ p hp)
    · intro s a
      by_cases hs : s = e.subnet
      · subst hs
        rw [hosts_eq_nil _ _ (netFind_netErase_self e.subnet net)]
        simp only [List.not_mem_nil, false_iff]
        intro hcon
        have h2 : a ∈ hmErase e.host hm := (hmem' a).mpr hcon
        rw [hnil] at h2
        simp at h2
      · rw [hosts, netFind_netErase_ne e.subnet s net hs, ← hosts, E.mem s a]
        exact hiffmem s a hs
    · intro c hc
      exact E.fresh c (List.mem_cons_of_mem e hc)
    · intro s
      by_cases hs : s = e.subnet
      · subst hs
        rw [netFind_netErase_self]
        simp only [Option.isSome_none, Bool.false_eq_true, false_iff]
        rintro (h | ⟨c, hc, hcs⟩)
        · cases hf : netFind e.subnet net₀ with
          | none => rw [hf] at h; simp at h
          | some hm₀ =>
            have hne0 : hm₀ ≠ [] := h₀ne (e.subnet, hm₀) (netFind_mem _ _ _ hf)
            obtain ⟨a, ha⟩ := List.exists_mem_of_ne_nil _ hne0
            have h2 : a ∈ hmErase e.host hm :=
              (hmem' a).mpr (Or.inl (by rw [hosts_eq _ _ _ hf]; exact ha))
            rw [hnil] at h2
            simp at h2
        · have h2 : c.host ∈ hmErase e.host hm := by
            apply (hmem' c.host).mpr
            apply Or.inr
            rw [← hcs]
            exact hc
          rw [hnil] at h2
          simp at h2
      · rw [netFind_netErase_ne e.subnet s net hs, E.present s]
        exact hiffpres s hs
    · intro p hp
      exact E.noEmptyN p (mem_netErase _ _ p hp)
  · rw [hclean, if_neg hnil]
    refine ⟨⟨keys_pairwise_netInsert _ _ _ E.ok.1, ?_⟩, ?_, ?_, hrestnodup, ?_, ?_⟩
    · intro p hp
      rcases mem_netInsert _ _ _ p hp with rfl | hp
      · exact pairwise_hmErase _ _ (E.ok.2 (e.subnet, hm) (netFind_mem _ _ _ he))
      · exact E.ok.2 p hp
    · intro s a
      by_cases hs : s = e.subnet
      · subst hs
        rw [hosts_eq _ _ _ (netFind_netInsert_self _ _ _)]
        exact hmem' a
      · rw [hosts, netFind_netInsert_ne _ _ _ _ hs, ← hosts, E.mem s a]
        exact hiffmem s a hs
    · intro c hc
      exact E.fresh c (List.mem_cons_of_mem e hc)
    · intro s
      by_cases hs : s = e.subnet
      · subst hs
        rw [netFind_netInsert_self]
        constructor
        · intro _
          obtain ⟨a, ha⟩ := List.exists_mem_of_ne_nil _ hnil
          rcases (hmem' a).mp ha with h | h
          · exact Or.inl (isSome_of_mem_hosts net₀ e.subnet a h)
          · exact Or.inr ⟨⟨e.subnet, a⟩, h, rfl⟩
        · intro _
          simp
      · rw [netFind_netInsert_ne _ _ _ _ hs, E.present s]
        exact hiffpres s hs
    · intro p hp
      rcases mem_netInsert _ _ _ p hp with rfl | hp
      · exact hnil
      · exact E.noEmptyN p hp

theorem clean_restores (net₀ : Net) (h₀ok : NetOk net₀) (h₀ne : NoEmpty net₀) :
    ∀ (cs : List TenantIP) (net : Net), Evolved net₀ net cs →
      cleanTenantIPs net cs = net₀ := by
  intro cs
  induction cs with
  | nil =>
    intro net E
    show List.foldl cleanOne net [] = net₀
    simp only [List.foldl_nil]
    apply net_ext net net₀ E.ok.1 h₀ok.1
    intro s
    cases he : netFind s net with
    | none =>
      cases he0 : netFind s net₀ with
      | none => rfl
      | some hm₀ =>
        have h1 := (E.present s).mpr (Or.inl (by rw [he0]; simp))
        rw [he] at h1
        simp at h1
    | some hm =>
      have h1 := (E.present s).mp (by rw [he]; simp)
      rcases h1 with h1 | h1
      · cases he0 : netFind s net₀ with
        | none => rw [he0] at h1; simp at h1
        | some hm₀ =>
          congr 1
          apply hm_ext hm hm₀ (E.ok.2 (s, hm) (netFind_mem _ _ _ he))
            (h₀ok.2 (s, hm₀) (netFind_mem _ _ _ he0))
          intro a
          have h2 := E.mem s a
          rw [hosts_eq _ _ _ he, hosts_eq _ _ _ he0] at h2
          simpa using h2
      · obtain ⟨c, hc, _⟩ := h1
        simp at hc
  | cons e rest ih =>
    intro net E
    show List.foldl cleanOne net (e :: rest) = net₀
    rw [List.foldl_cons]
    exact ih (cleanOne net e) (evolved_cleanOne net₀ net e rest h₀ne E)

end Ciao

namespace Ciao

theorem scanHosts_no_hit (s startA : Nat) (num : Int) (hnum : num ≤ 0) :
    ∀ k host net hc addrs claims, ∃ n hc' a c,
      scanHosts s startA num k host net hc addrs claims = .more n hc' a c := by
  intro k
  induction k with
  | zero =>
    intro host net hc addrs claims
    exact ⟨net, hc, addrs, claims, rfl⟩
  | succ k ih =>
    intro host net hc addrs claims
    by_cases hmem : (startA + host) ∈ hosts net s
    · simp only [scanHosts, if_pos hmem]
      exact ih (host+1) net hc addrs claims
    · have hne : ¬ (((hc : Int) + 1) = num) := by omega
      simp only [scanHosts, if_neg hmem, if_neg hne]
      exact ih (host+1) _ (hc+1) _ _

theorem allocScan_no_claim (endA mask hostBits : Nat) (num : Int) (hnum : num ≤ 0) :
    ∀ fuel start net hc addrs claims, ∃ n c,
      allocScan endA mask hostBits num fuel start net hc addrs claims =
        .outOfAddrs n c := by
  intro fuel
  induction fuel with
  | zero =>
    intro start net hc addrs claims
    exact ⟨net, claims, rfl⟩
  | succ fuel ih =>
    intro start net hc addrs claims
    by_cases hend : endA ≤ start
    · simp only [allocScan, if_pos hend]
      exact ⟨net, claims, rfl⟩
    · simp only [allocScan, if_neg hend]
      cases he : netFind (start &&& mask) net with
      | none =>
        obtain ⟨n, hc', a, c, hmore⟩ := scanHosts_no_hit (start &&& mask) start num hnum
          (2 ^ hostBits - 1 - 2) 2 (netInsert (start &&& mask) [] net) hc addrs claims
        rw [hmore]
        exact ih (start + 2 ^ hostBits) n hc' a c
      | some hm =>
        obtain ⟨n, hc', a, c, hmore⟩ := scanHosts_no_hit (start &&& mask) start num hnum
          (2 ^ hostBits - 1 - 2) 2 net hc addrs claims
        rw [hmore]
        exact ih (start + 2 ^ hostBits) n hc' a c

/-- C2: when the bulk persistent claim `claimTenantIPs` is stubbed to fail,
`AllocateTenantIPPool` returns a nil address slice and an error — the wrapped
claim error when the scan accumulated the requested number of addresses, the
out-of-addresses error otherwise — and the tenant's `network` map afterwards
has exactly the contents it had before the call: every in-memory mark is
rolled back and subnet host-maps emptied by the rollback are removed.  The
hypotheses are the canonical-representation well-formedness of the embedded
map, the datastore invariant that no cached subnet has an empty host map, and
`SubnetBits ≤ 30` (the datastore accepts 4..30). -/
theorem claim_C2_bulk_claim_rollback (net₀ : Net) (subnetBits : Nat) (num : Int)
    (pick : Option Nat) (cnci : Bool) (waitOK : Nat → Bool)
    (hok : NetOk net₀) (hne : NoEmpty net₀) (hsb : subnetBits ≤ 30) :
    (allocateTenantIPPool net₀ subnetBits num pick false cnci waitOK).net = net₀ ∧
    (allocateTenantIPPool net₀ subnetBits num pick false cnci waitOK).addrs = none ∧
    ((allocateTenantIPPool net₀ subnetBits num pick false cnci waitOK).err = some .db ∨
     (allocateTenantIPPool net₀ subnetBits num pick false cnci waitOK).err =
       some .outOfAddrs) := by
  have hHB : 2 ≤ 32 - subnetBits := by omega
  have E0 := evolved_init net₀ hok hne
  simp only [allocateTenantIPPool]
  have E := allocScan_evolved net₀
    ((((0xAC100000 &&& maskOf subnetBits) >>> 20) + 1) <<< 20) (maskOf subnetBits)
    (32 - subnetBits) num hHB
    (((((0xAC100000 &&& maskOf subnetBits) >>> 20) + 1) <<< 20) -
      pick.getD (0xAC100000 &&& maskOf subnetBits))
    (pick.getD (0xAC100000 &&& maskOf subnetBits)) net₀ 0 [] [] E0
  cases hres : allocScan ((((0xAC100000 &&& maskOf subnetBits) >>> 20) + 1) <<< 20)
      (maskOf subnetBits) (32 - subnetBits) num
      (((((0xAC100000 &&& maskOf subnetBits) >>> 20) + 1) <<< 20) -
        pick.getD (0xAC100000 &&& maskOf subnetBits))
      (pick.getD (0xAC100000 &&& maskOf subnetBits)) net₀ 0 [] [] with
  | outOfAddrs n c =>
    rw [hres] at E
    simp only [AllocOut.netOf, AllocOut.claimsOf] at E
    exact ⟨clean_restores net₀ hok hne c n E, rfl, Or.inr rfl⟩
  | claimPoint n a c =>
    rw [hres] at E
    simp only [AllocOut.netOf, AllocOut.claimsOf] at E
    exact ⟨clean_restores net₀ hok hne c n E, rfl, Or.inl rfl⟩

/-- C10: with `num = 0` or `num < 0` the termination test `hostCount == num`
(checked only after a mark) can never fire, so `AllocateTenantIPPool` never
returns an empty success: the scan marks and rolls back and the call returns
the out-of-addresses error with a nil address slice and the tenant's network
map unchanged — for any stubbed claim outcome. -/
theorem claim_C10_num_zero_never_empty_success (net₀ : Net) (subnetBits : Nat)
    (num : Int) (pick : Option Nat) (claimOK cnci : Bool) (waitOK : Nat → Bool)
    (hok : NetOk net₀) (hne : NoEmpty net₀) (hsb : subnetBits ≤ 30) (hnum : num ≤ 0) :
    (allocateTenantIPPool net₀ subnetBits num pick claimOK cnci waitOK).net = net₀ ∧
    (allocateTenantIPPool net₀ subnetBits num pick claimOK cnci waitOK).addrs = none ∧
    (allocateTenantIPPool net₀ subnetBits num pick claimOK cnci waitOK).err =
      some .outOfAddrs := by
  have hHB : 2 ≤ 32 - subnetBits := by omega
  have E0 := evolved_init net₀ hok hne
  simp only [allocateTenantIPPool]
  have E := allocScan_evolved net₀
    ((((0xAC100000 &&& maskOf subnetBits) >>> 20) + 1) <<< 20) (maskOf subnetBits)
    (32 - subnetBits) num hHB
    (((((0xAC100000 &&& maskOf subnetBits) >>> 20) + 1) <<< 20) -
      pick.getD (0xAC100000 &&& maskOf subnetBits))
    (pick.getD (0xAC100000 &&& maskOf subnetBits)) net₀ 0 [] [] E0
  obtain ⟨n, c, hres⟩ := allocScan_no_claim
    ((((0xAC100000 &&& maskOf subnetBits) >>> 20) + 1) <<< 20) (maskOf subnetBits)
    (32 - subnetBits) num hnum
    (((((0xAC100000 &&& maskOf subnetBits) >>> 20) + 1) <<< 20) -
      pick.getD (0xAC100000 &&& maskOf subnetBits))
    (pick.getD (0xAC100000 &&& maskOf subnetBits)) net₀ 0 [] []
  rw [hres] at E
  simp only [AllocOut.netOf, AllocOut.claimsOf] at E
  rw [hres]
  exact ⟨clean_restores net₀ hok hne c n E, rfl, rfl⟩

end Ciao

namespace Ciao

/-- Witness for C2 at a concrete input: a fresh tenant (empty network map)
with `SubnetBits = 30`, requesting 5 addresses against a store whose
`claimTenantIPs` fails. -/
theorem claim_C2_witness :
    (allocateTenantIPPool [] 30 5 none false false (fun _ => true)).net = [] ∧
    (allocateTenantIPPool [] 30 5 none false false (fun _ => true)).addrs = none ∧
    ((allocateTenantIPPool [] 30 5 none false false (fun _ => true)).err = some .db ∨
     (allocateTenantIPPool [] 30 5 none false false (fun _ => true)).err =
       some .outOfAddrs) :=
  claim_C2_bulk_claim_rollback [] 30 5 none false (fun _ => true)
    (by simp [NetOk]) (by simp [NoEmpty]) (by decide)

/-- Witness for C10 at a concrete input: a fresh tenant with
`SubnetBits = 30` and `num = 0`. -/
theorem claim_C10_witness :
    (allocateTenantIPPool [] 30 0 none true false (fun _ => true)).net = [] ∧
    (allocateTenantIPPool [] 30 0 none true false (fun _ => true)).addrs = none ∧
    (allocateTenantIPPool [] 30 0 none true false (fun _ => true)).err =
      some .outOfAddrs :=
  claim_C10_num_zero_never_empty_success [] 30 0 none true false (fun _ => true)
    (by simp [NetOk]) (by simp [NoEmpty]) (by decide) (by decide)

/-- C3 counterexample: for a tenant with `SubnetBits = 30`, the first
`AllocateTenantIPPool(tenant, 1)` does return `172.16.0.2` (`0xAC100002`),
but a second call does NOT fail with the out-of-addresses error as the claim
states: it succeeds, returning `172.16.0.6` (`0xAC100006`) from the next /30
subnet slot.  The `pick` passed to the second call is the only choice Go's
map iteration can make, as `pickValid` shows. -/
theorem claim_C3_counterexample :
    (allocateTenantIPPool [] 30 1 none true false (fun _ => true)).addrs =
        some [0xAC100002] ∧
    (allocateTenantIPPool [] 30 1 none true false (fun _ => true)).net =
        [(0xAC100000, [0xAC100002])] ∧
    pickValid [(0xAC100000, [0xAC100002])] 4 (some 0xAC100000) ∧
    (allocateTenantIPPool [(0xAC100000, [0xAC100002])] 30 1 (some 0xAC100000) true
        false (fun _ => true)).err ≠ some .outOfAddrs ∧
    (allocateTenantIPPool [(0xAC100000, [0xAC100002])] 30 1 (some 0xAC100000) true
        false (fun _ => true)).addrs = some [0xAC100006] :=
  ⟨by decide, by decide, ⟨[0xAC100002], by decide, by decide⟩, by decide, by decide⟩

/-- C3 as amended: a first `AllocateTenantIPPool(tenant, 1)` on a fresh
`SubnetBits = 30` tenant succeeds with `172.16.0.2` and marks subnet
`172.16.0.0`; a second call succeeds with `172.16.0.6`, opening the next /30
subnet slot `172.16.0.4` — exhaustion would occur only after all `2^18` slots
of `172.16.0.0/12` are in use. -/
theorem claim_C3_amended_second_call_succeeds :
    allocateTenantIPPool [] 30 1 none true false (fun _ => true) =
      { addrs := some [0xAC100002], err := none,
        net := [(0xAC100000, [0xAC100002])], droppedActivationErr := false } ∧
    pickValid [(0xAC100000, [0xAC100002])] 4 (some 0xAC100000) ∧
    allocateTenantIPPool [(0xAC100000, [0xAC100002])] 30 1 (some 0xAC100000) true
        false (fun _ => true) =
      { addrs := some [0xAC100006], err := none,
        net := [(0xAC100000, [0xAC100002]), (0xAC100004, [0xAC100006])],
        droppedActivationErr := false } :=
  ⟨by decide, ⟨[0xAC100002], by decide, by decide⟩, by decide⟩

/-- C4: at the concrete failing input — a fresh `SubnetBits = 30` tenant
whose network-controller handle is present but whose `WaitForActive` fails —
a successful allocation of one address returns the address together with a
nil error: the activation failure is computed by the deferred closure
(recorded here as `droppedActivationErr = true`) but never reaches the
caller, because the closure assigns it to the local `retval` after the
function's unnamed result values have been bound.  The address stays
allocated in the tenant's network map, as the claim says. -/
theorem claim_C4_activation_error_dropped :
    allocateTenantIPPool [] 30 1 none true true (fun _ => false) =
      { addrs := some [0xAC100002], err := none,
        net := [(0xAC100000, [0xAC100002])], droppedActivationErr := true } := by
  decide

end Ciao

namespace Ciao

theorem chain_replace_last (R : CiaoUsage → CiaoUsage → Prop) (l : List CiaoUsage)
    (a b : CiaoUsage) (hR : ∀ x, R x a → R x b) (h : List.Chain' R (l ++ [a])) :
    List.Chain' R (l ++ [b]) := by
  rw [List.chain'_append] at h ⊢
  refine ⟨h.1, List.chain'_singleton b, ?_⟩
  intro x hx y hy
  simp only [List.head?_cons, Option.mem_def, Option.some.injEq] at hy
  subst hy
  exact hR x (h.2.2 x hx a (by simp))

theorem usageGap_mono (l : List CiaoUsage) (h : UsageGap l) : UsageMono l := by
  apply List.Chain'.imp ?_ h
  intro a b hab
  have hpos : (0 : Int) < tenantUsagePeriod := by norm_num [tenantUsagePeriod]
  omega

/-- C8: `updateTenantUsage` keeps the per-tenant history invariant — the
timestamps are non-decreasing and consecutive entries are at least five
minutes apart — and behaves exactly as claimed: an all-zero delta is a no-op;
with no prior entry a new entry equal to the delta is appended, timestamped
`now`; a delta within five minutes of the last entry updates that entry in
place, adding the delta and keeping its timestamp; a delta five or more
minutes after the last entry appends a new summed entry timestamped `now`. -/
theorem claim_C8_usage_history (hist : List CiaoUsage) (delta : CiaoUsage) (now : Int) :
    (updateTenantUsageNeeded delta = false → updateTenantUsage hist delta now = hist) ∧
    (updateTenantUsageNeeded delta = true → hist = [] →
      updateTenantUsage hist delta now = [⟨delta.vcpu, delta.memory, delta.disk, now⟩]) ∧
    (∀ last, updateTenantUsageNeeded delta = true → hist.getLast? = some last →
      now - last.ts < tenantUsagePeriod →
      updateTenantUsage hist delta now = hist.dropLast ++
        [⟨last.vcpu + delta.vcpu, last.memory + delta.memory,
          last.disk + delta.disk, last.ts⟩]) ∧
    (∀ last, updateTenantUsageNeeded delta = true → hist.getLast? = some last →
      tenantUsagePeriod ≤ now - last.ts →
      updateTenantUsage hist delta now = hist ++
        [⟨last.vcpu + delta.vcpu, last.memory + delta.memory,
          last.disk + delta.disk, now⟩]) ∧
    (UsageGap hist →
      UsageGap (updateTenantUsage hist delta now) ∧
      UsageMono (updateTenantUsage hist delta now)) := by
  refine ⟨?_, ?_, ?_, ?_, ?_⟩
  · intro h
    simp [updateTenantUsage, h]
  · intro h hnil
    subst hnil
    simp [updateTenantUsage, h]
  · intro last h hlast hlt
    simp [updateTenantUsage, h, hlast, hlt]
  · intro last h hlast hge
    have hnlt : ¬ (now - last.ts < tenantUsagePeriod) := by omega
    simp [updateTenantUsage, h, hlast, hnlt]
  · intro hgap
    suffices hg : UsageGap (updateTenantUsage hist delta now) by
      exact ⟨hg, usageGap_mono _ hg⟩
    by_cases hneed : updateTenantUsageNeeded delta = false
    · simpa [updateTenantUsage, hneed] using hgap
    · cases hlast : hist.getLast? with
      | none =>
        have hnil : hist = [] := List.getLast?_eq_none_iff.mp hlast
        subst hnil
        simp [updateTenantUsage, hneed, UsageGap]
      | some last =>
        by_cases hlt : now - last.ts < tenantUsagePeriod
        · have heq : hist.dropLast ++ [last] = hist :=
            List.dropLast_append_getLast? last (Option.mem_def.mpr hlast)
          have hres : updateTenantUsage hist delta now = hist.dropLast ++
              [⟨last.vcpu + delta.vcpu, last.memory + delta.memory,
                last.disk + delta.disk, last.ts⟩] := by
            simp [updateTenantUsage, hneed, hlast, hlt]
          rw [hres]
          rw [← heq] at hgap
          simp only [UsageGap] at hgap ⊢
          exact chain_replace_last _ hist.dropLast last _ (fun x hx => hx) hgap
        · have hres : updateTenantUsage hist delta now = hist ++
              [⟨last.vcpu + delta.vcpu, last.memory + delta.memory,
                last.disk + delta.disk, now⟩] := by
            simp [updateTenantUsage, hneed, hlast, hlt]
          rw [hres]
          rw [UsageGap, List.chain'_append]
          refine ⟨hgap, List.chain'_singleton _, ?_⟩
          intro x hx y hy
          simp only [List.head?_cons, Option.mem_def, Option.some.injEq] at hy
          subst hy
          rw [hlast] at hx
          simp only [Option.mem_def, Option.some.injEq] at hx
          subst hx
          simp only
          omega

/-- Witness for C8 at concrete inputs: a one-entry history at time 0 with a
delta at one minute (in place) and at six minutes (append). -/
theorem claim_C8_witness :
    (updateTenantUsage [⟨10, 0, 0, 0⟩] ⟨5, 0, 0, 5⟩ 60000000000 =
      [⟨15, 0, 0, 0⟩]) ∧
    (updateTenantUsage [⟨10, 0, 0, 0⟩] ⟨5, 0, 0, 5⟩ 360000000000 =
      [⟨10, 0, 0, 0⟩, ⟨15, 0, 0, 360000000000⟩]) ∧
    (UsageGap [⟨10, 0, 0, 0⟩] → UsageGap (updateTenantUsage [⟨10, 0, 0, 0⟩]
      ⟨5, 0, 0, 5⟩ 360000000000)) := by
  refine ⟨?_, ?_, ?_⟩
  · have h := (claim_C8_usage_history [⟨10, 0, 0, 0⟩] ⟨5, 0, 0, 5⟩ 60000000000).2.2.1
      ⟨10, 0, 0, 0⟩ (by decide) (by decide) (by decide)
    simpa using h
  · have h := (claim_C8_usage_history [⟨10, 0, 0, 0⟩] ⟨5, 0, 0, 5⟩ 360000000000).2.2.2.1
      ⟨10, 0, 0, 0⟩ (by decide) (by decide) (by decide)
    simpa using h
  · intro hg
    exact ((claim_C8_usage_history [⟨10, 0, 0, 0⟩] ⟨5, 0, 0, 5⟩ 360000000000).2.2.2.2
      hg).1

end Ciao

namespace Ciao

/-- C9: `DeleteWorkload` fails with `WorkloadInUse` and leaves every cache
unchanged whenever some instance in the instances cache references the
workload id — for any stubbed persistent outcome, since the check precedes
the persistent call; and once no instance references it, `DeleteWorkload` of
an existing workload (with the persistent delete succeeding, and the owning
tenant cached in the non-public case) succeeds, removing the id from the
`workloads` map and from its visibility list (`publicWorkloads` for a public
workload, the owning tenant's list otherwise). -/
theorem claim_C9_delete_workload (st : WlState) (id : String) :
    (∀ dbOK, (∃ p ∈ st.instances, p.2.workloadID = id) →
      deleteWorkload st id dbOK = (some .workloadInUse, st)) ∧
    (∀ wl, (∀ p ∈ st.instances, p.2.workloadID ≠ id) →
      lookupKV id st.workloads = some wl →
      ((wl.vis = .publicV →
        deleteWorkload st id true =
          (none, { st with
            publicWorkloads := eraseFirst id st.publicWorkloads,
            workloads := eraseKV id st.workloads })) ∧
       (wl.vis ≠ .publicV → ∀ ws,
        lookupKV wl.tenantID st.tenantWorkloads = some ws →
        deleteWorkload st id true =
          (none, { st with
            tenantWorkloads := insertKV wl.tenantID (eraseFirst id ws)
              st.tenantWorkloads,
            workloads := eraseKV id st.workloads })))) := by
  constructor
  · rintro dbOK ⟨p, hp, hpe⟩
    have hany : st.instances.any (fun p => p.2.workloadID == id) = true :=
      List.any_eq_true.mpr ⟨p, hp, by simp [hpe]⟩
    simp [deleteWorkload, hany]
  · intro wl hnone hlook
    have hany : st.instances.any (fun p => p.2.workloadID == id) = false := by
      rw [List.any_eq_false]
      intro p hp
      simp [hnone p hp]
    constructor
    · intro hvis
      simp [deleteWorkload, hany, hlook, hvis]
    · intro hvis ws hws
      simp [deleteWorkload, hany, hlook, hvis, hws]

/-- Witness for C9 at concrete inputs: a public workload `w`; with an
instance referencing it the call fails with `WorkloadInUse` and changes
nothing; with the instance gone it succeeds and unlinks `w` from both the
`workloads` map and `publicWorkloads`. -/
theorem claim_C9_witness :
    deleteWorkload ⟨[("w", ⟨"t", .publicV⟩)], ["w"], [], [("i", ⟨"w"⟩)]⟩ "w" true =
      (some .workloadInUse, ⟨[("w", ⟨"t", .publicV⟩)], ["w"], [], [("i", ⟨"w"⟩)]⟩) ∧
    deleteWorkload ⟨[("w", ⟨"t", .publicV⟩)], ["w"], [], []⟩ "w" true =
      (none, ⟨[], [], [], []⟩) := by
  constructor
  · exact (claim_C9_delete_workload _ "w").1 true ⟨("i", ⟨"w"⟩), by decide, by decide⟩
  · have h := ((claim_C9_delete_workload ⟨[("w", ⟨"t", .publicV⟩)], ["w"], [], []⟩
      "w").2 ⟨"t", .publicV⟩ (by intro p hp; simp at hp) (by decide)).1 (by decide)
    rw [h]
    decide

end Ciao

namespace Ciao

theorem lookupKV_cons {κ α : Type} [DecidableEq κ] (k k' : κ) (v' : α)
    (l : List (κ × α)) :
    lookupKV k ((k', v') :: l) = if k' = k then some v' else lookupKV k l := rfl

theorem insertKV_cons {κ α : Type} [DecidableEq κ] (k k' : κ) (v v' : α)
    (l : List (κ × α)) :
    insertKV k v ((k', v') :: l) =
      if k' = k then (k, v) :: l else (k', v') :: insertKV k v l := rfl

theorem eraseKV_cons {κ α : Type} [DecidableEq κ] (k k' : κ) (v' : α)
    (l : List (κ × α)) :
    eraseKV k ((k', v') :: l) =
      if k' = k then eraseKV k l else (k', v') :: eraseKV k l := rfl

theorem lookupKV_insertKV_self {κ α : Type} [DecidableEq κ] (k : κ) (v : α)
    (l : List (κ × α)) : lookupKV k (insertKV k v l) = some v := by
  induction l with
  | nil => simp [insertKV, lookupKV]
  | cons p l ih =>
    obtain ⟨k', v'⟩ := p
    by_cases h : k' = k
    · rw [insertKV_cons, if_pos h, lookupKV_cons, if_pos rfl]
    · rw [insertKV_cons, if_neg h, lookupKV_cons, if_neg h, ih]

theorem lookupKV_insertKV_ne {κ α : Type} [DecidableEq κ] (k k2 : κ) (v : α)
    (l : List (κ × α)) (h : k2 ≠ k) :
    lookupKV k2 (insertKV k v l) = lookupKV k2 l := by
  have hk2 : ¬ k = k2 := fun h2 => h h2.symm
  induction l with
  | nil => simp [insertKV, lookupKV, hk2]
  | cons p l ih =>
    obtain ⟨k', v'⟩ := p
    by_cases h1 : k' = k
    · rw [insertKV_cons, if_pos h1, lookupKV_cons, lookupKV_cons, if_neg hk2,
        if_neg (by rw [h1]; exact hk2)]
    · rw [insertKV_cons, if_neg h1, lookupKV_cons, lookupKV_cons]
      by_cases h2 : k' = k2
      · rw [if_pos h2, if_pos h2]
      · rw [if_neg h2, if_neg h2, ih]

theorem lookupKV_eraseKV_self {κ α : Type} [DecidableEq κ] (k : κ)
    (l : List (κ × α)) : lookupKV k (eraseKV k l) = none := by
  induction l with
  | nil => simp [eraseKV, lookupKV]
  | cons p l ih =>
    obtain ⟨k', v'⟩ := p
    by_cases h : k' = k
    · rw [eraseKV_cons, if_pos h]
      exact ih
    · rw [eraseKV_cons, if_neg h, lookupKV_cons, if_neg h]
      exact ih

theorem lookupKV_eraseKV_ne {κ α : Type} [DecidableEq κ] (k k2 : κ)
    (l : List (κ × α)) (h : k2 ≠ k) :
    lookupKV k2 (eraseKV k l) = lookupKV k2 l := by
  induction l with
  | nil => simp [eraseKV, lookupKV]
  | cons p l ih =>
    obtain ⟨k', v'⟩ := p
    by_cases h1 : k' = k
    · rw [eraseKV_cons, if_pos h1, ih, lookupKV_cons,
        if_neg (by rw [h1]; exact fun h2 => h h2.symm)]
    · rw [eraseKV_cons, if_neg h1, lookupKV_cons, lookupKV_cons]
      by_cases h2 : k' = k2
      · rw [if_pos h2, if_pos h2]
      · rw [if_neg h2, if_neg h2, ih]

/-- C6 counterexample: on a concrete available volume `v` of cached tenant
`t`, a successful `CreateStorageAttachment` marks the volume `InUse`, and a
subsequent successful `DeleteStorageAttachment` of that attachment removes
the attachment from both caches but leaves the volume `InUse` — its state is
NOT restored to `Available`, contradicting the claim.  (Only the instance
deletion cascade `updateStorageAttachments` resets volumes to
`Available`.) -/
theorem claim_C6_counterexample :
    createStorageAttachment
        ⟨[("v", ⟨"v", "t", .available⟩)], [("t", [("v", ⟨"v", "t", .available⟩)])],
          [], []⟩ "i" "v" false false "a1" true true =
      some (none, some ⟨"i", "v", false, false⟩,
        ⟨[("v", ⟨"v", "t", .inUse⟩)], [("t", [("v", ⟨"v", "t", .inUse⟩)])],
          [("a1", ⟨"i", "v", false, false⟩)], [(("i", "v"), "a1")]⟩) ∧
    deleteStorageAttachment
        ⟨[("v", ⟨"v", "t", .inUse⟩)], [("t", [("v", ⟨"v", "t", .inUse⟩)])],
          [("a1", ⟨"i", "v", false, false⟩)], [(("i", "v"), "a1")]⟩ "a1" true =
      (none, ⟨[("v", ⟨"v", "t", .inUse⟩)], [("t", [("v", ⟨"v", "t", .inUse⟩)])],
        [], []⟩) ∧
    (VolState.inUse ≠ VolState.available) := by
  decide

/-- C6 as amended: for every state with the volume and its tenant cached and
both persistent writes succeeding, `CreateStorageAttachment` transitions the
volume to `InUse`, and `DeleteStorageAttachment` of that attachment removes
it from `attachments` and from the `instanceVolumes` index but leaves the
volume's cached state `InUse` — the state is restored to `Available` only by
the instance-deletion cascade, not by `DeleteStorageAttachment`. -/
theorem claim_C6_amended_delete_leaves_inuse (st : StorState) (instanceID : String)
    (vol : Volume) (eph boot : Bool) (aID : String)
    (devs : List (String × Volume))
    (hbd : lookupKV vol.id st.blockDevices = some vol)
    (htd : lookupKV vol.tenantID st.tenantDevices = some devs) :
    ∃ st1,
      createStorageAttachment st instanceID vol.id eph boot aID true true =
        some (none, some ⟨instanceID, vol.id, eph, boot⟩, st1) ∧
      lookupKV vol.id st1.blockDevices = some { vol with state := .inUse } ∧
      ∃ st2, deleteStorageAttachment st1 aID true = (none, st2) ∧
        lookupKV aID st2.attachments = none ∧
        lookupKV (instanceID, vol.id) st2.instanceVolumes = none ∧
        lookupKV vol.id st2.blockDevices = some { vol with state := .inUse } := by
  refine ⟨{ st with
      blockDevices := insertKV vol.id { vol with state := .inUse } st.blockDevices,
      tenantDevices := insertKV vol.tenantID
        (insertKV vol.id { vol with state := .inUse } devs) st.tenantDevices,
      attachments := insertKV aID ⟨instanceID, vol.id, eph, boot⟩ st.attachments,
      instanceVolumes := insertKV (instanceID, vol.id) aID st.instanceVolumes },
    ?_, ?_, ?_⟩
  · simp [createStorageAttachment, updateBlockDevice, addBlockDevice, hbd, htd]
  · simp [lookupKV_insertKV_self]
  · refine ⟨{ st with
        blockDevices := insertKV vol.id { vol with state := .inUse } st.blockDevices,
        tenantDevices := insertKV vol.tenantID
          (insertKV vol.id { vol with state := .inUse } devs) st.tenantDevices,
        attachments := eraseKV aID
          (insertKV aID ⟨instanceID, vol.id, eph, boot⟩ st.attachments),
        instanceVolumes := eraseKV (instanceID, vol.id)
          (insertKV (instanceID, vol.id) aID st.instanceVolumes) }, ?_, ?_, ?_, ?_⟩
    · simp [deleteStorageAttachment, lookupKV_insertKV_self]
    · simp [lookupKV_eraseKV_self]
    · simp [lookupKV_eraseKV_self]
    · simp [lookupKV_insertKV_self]

/-- Witness for C6's amended theorem at the concrete state of the
counterexample. -/
theorem claim_C6_amended_witness :
    ∃ st1,
      createStorageAttachment
          ⟨[("v", ⟨"v", "t", .available⟩)], [("t", [("v", ⟨"v", "t", .available⟩)])],
            [], []⟩ "i" "v" false false "a1" true true =
        some (none, some ⟨"i", "v", false, false⟩, st1) ∧
      lookupKV "v" st1.blockDevices = some ⟨"v", "t", .inUse⟩ ∧
      ∃ st2, deleteStorageAttachment st1 "a1" true = (none, st2) ∧
        lookupKV "a1" st2.attachments = none ∧
        lookupKV ("i", "v") st2.instanceVolumes = none ∧
        lookupKV "v" st2.blockDevices = some ⟨"v", "t", .inUse⟩ :=
  claim_C6_amended_delete_leaves_inuse
    ⟨[("v", ⟨"v", "t", .available⟩)], [("t", [("v", ⟨"v", "t", .available⟩)])], [], []⟩
    "i" ⟨"v", "t", .available⟩ false false "a1" [("v", ⟨"v", "t", .available⟩)]
    (by decide) (by decide)

end Ciao

namespace Ciao

/-- C1 counterexample: `DeleteTenant` of a cached tenant with the persistent
delete failing returns the wrapped store error AND has already committed the
cache mutation — the tenants cache is empty afterwards — contradicting the
claim that on persistent failure the operation returns the error without
having committed the cache update. -/
theorem claim_C1_counterexample :
    deleteTenantDS [("t", ())] "t" false = ((some .db, []), [.deleteTenant]) ∧
    ([] : List (String × Unit)) ≠ [("t", ())] := by
  decide

theorem addPoolCommit_fail (st : PoolsState) (pool : Pool) (dbDelOK : Bool)
    (hfree : pool.free = pool.totalIPs) :
    (addPoolCommit st pool false dbDelOK).1.1 = some .db ∧
    (addPoolCommit st pool false dbDelOK).2 = [.addPool, .deletePool] ∧
    lookupKV pool.id (addPoolCommit st pool false dbDelOK).1.2.pools = none := by
  refine ⟨?_, ?_, ?_⟩ <;>
    simp [addPoolCommit, deletePool, lookupKV_insertKV_self, hfree,
      lookupKV_eraseKV_self]

/-- C1 as amended: the three named write paths do not follow the
persistent-write-before-cache-commit discipline.  `DeleteTenant` commits the
cache deletion first: when the persistent delete fails it returns the error
with the tenant already removed from the cache.  `DeleteImage` issues no
persistent-store operation on any path, yet a successful call does mutate the
caches (the image is gone).  `AddPool` commits the validated pool to the
cache before the persistent write and, when that write fails, returns the
error after compensating with `DeletePool` (here for a pool with
`Free = TotalIPs`, so the compensation actually removes it). -/
theorem claim_C1_amended_write_ordering
    (tenants : List (String × Unit)) (id : String)
    (istate : ImgState) (iid : String) (img : Image)
    (pst : PoolsState) (pool : Pool) (dbDelOK : Bool)
    (ht : (lookupKV id tenants).isSome)
    (himg : lookupKV iid istate.images = some img)
    (hten : img.tenantID = "" ∨ (lookupKV img.tenantID istate.tenantImages).isSome)
    (hfree : pool.free = pool.totalIPs)
    (hsub : (registerSubnets pst.externalSubnets pool.subnets).1 = true)
    (hips : pool.ips.any
      (fun ip => isDuplicateIP pst.externalSubnets pst.externalIPs ip.address) = false) :
    deleteTenantDS tenants id false =
      ((some .db, eraseKV id tenants), [.deleteTenant]) ∧
    (∀ st2 i2, (deleteImage st2 i2).2 = []) ∧
    (deleteImage istate iid).1.1 = none ∧
    lookupKV iid (deleteImage istate iid).1.2.images = none ∧
    (addPool pst pool false dbDelOK).1.1 = some .db ∧
    (addPool pst pool false dbDelOK).2 = [.addPool, .deletePool] ∧
    lookupKV pool.id (addPool pst pool false dbDelOK).1.2.pools = none := by
  obtain ⟨u, hu⟩ := Option.isSome_iff_exists.mp ht
  have himgpart : (deleteImage istate iid).1.1 = none ∧
      lookupKV iid (deleteImage istate iid).1.2.images = none := by
    by_cases h2 : img.tenantID = ""
    · constructor
      · simp [deleteImage, himg, h2]
      · simp [deleteImage, himg, h2, deleteImageLists, lookupKV_eraseKV_self]
    · have hsome : (lookupKV img.tenantID istate.tenantImages).isSome := by
        rcases hten with h | h
        · exact absurd h h2
        · exact h
      obtain ⟨imgs, h3⟩ := Option.isSome_iff_exists.mp hsome
      constructor
      · simp [deleteImage, himg, h2, h3]
      · simp [deleteImage, himg, h2, h3, deleteImageLists, lookupKV_eraseKV_self]
  have hpoolpart : (addPool pst pool false dbDelOK).1.1 = some .db ∧
      (addPool pst pool false dbDelOK).2 = [.addPool, .deletePool] ∧
      lookupKV pool.id (addPool pst pool false dbDelOK).1.2.pools = none := by
    by_cases hs : pool.subnets = []
    · by_cases hi : pool.ips = []
      · have heq : addPool pst pool false dbDelOK =
            addPoolCommit pst pool false dbDelOK := by
          simp [addPool, hs, hi]
        rw [heq]
        exact addPoolCommit_fail pst pool dbDelOK hfree
      · have heq : addPool pst pool false dbDelOK =
            addPoolCommit
              { pst with externalIPs :=
                  pst.externalIPs ++ pool.ips.map (fun ip => ip.address) }
              pool false dbDelOK := by
          simp [addPool, hs, hi, hips]
        rw [heq]
        exact addPoolCommit_fail _ pool dbDelOK hfree
    · cases hreg : registerSubnets pst.externalSubnets pool.subnets with
      | mk b ext' =>
        have hb : b = true := by rw [hreg] at hsub; exact hsub
        subst hb
        have heq : addPool pst pool false dbDelOK =
            addPoolCommit { pst with externalSubnets := ext' } pool false dbDelOK := by
          simp [addPool, hs, hreg]
        rw [heq]
        exact addPoolCommit_fail _ pool dbDelOK hfree
    
  refine ⟨by simp [deleteTenantDS, hu], ?_, himgpart.1, himgpart.2,
    hpoolpart.1, hpoolpart.2.1, hpoolpart.2.2⟩
  intro st2 i2
  cases h1 : lookupKV i2 st2.images with
  | none => simp [deleteImage, h1]
  | some img2 =>
    by_cases h2 : img2.tenantID = ""
    · simp [deleteImage, h1, h2]
    · cases h3 : lookupKV img2.tenantID st2.tenantImages with
      | none => simp [deleteImage, h1, h2, h3]
      | some imgs => simp [deleteImage, h1, h2, h3]

/-- Witness for C1's amended theorem at concrete inputs: one cached tenant
`t`, a public image `i` with no owning tenant, and a fresh subnet pool with
`Free = TotalIPs`. -/
theorem claim_C1_witness :
    deleteTenantDS [("t", ())] "t" false =
      ((some .db, eraseKV "t" [("t", ())]), [.deleteTenant]) ∧
    (∀ st2 i2, (deleteImage st2 i2).2 = []) ∧
    (deleteImage ⟨[("i", ⟨"", .publicV⟩)], [], ["i"], []⟩ "i").1.1 = none ∧
    lookupKV "i" (deleteImage ⟨[("i", ⟨"", .publicV⟩)], [], ["i"], []⟩ "i").1.2.images =
      none ∧
    (addPool ⟨[], [], [], []⟩ ⟨"p", "pn", [⟨0x0A000000, 24⟩], [], 254, 254⟩
      false true).1.1 = some .db ∧
    (addPool ⟨[], [], [], []⟩ ⟨"p", "pn", [⟨0x0A000000, 24⟩], [], 254, 254⟩
      false true).2 = [.addPool, .deletePool] ∧
    lookupKV "p" (addPool ⟨[], [], [], []⟩ ⟨"p", "pn", [⟨0x0A000000, 24⟩], [], 254, 254⟩
      false true).1.2.pools = none :=
  claim_C1_amended_write_ordering [("t", ())] "t"
    ⟨[("i", ⟨"", .publicV⟩)], [], ["i"], []⟩ "i" ⟨"", .publicV⟩
    ⟨[], [], [], []⟩ ⟨"p", "pn", [⟨0x0A000000, 24⟩], [], 254, 254⟩ true
    (by decide) (by decide) (Or.inl rfl) (by decide) (by decide) (by decide)

end Ciao

namespace Ciao

/-- C5 counterexample: a pool with one individual IP and a working
`addMappedIP` but failing `updatePool`: `MapExternalIP` returns an error AND
the new `MappedIP` IS committed to the `mappedIPs` cache, contradicting the
claim that on any persistent failure the MappedIP is not committed. -/
theorem claim_C5_counterexample :
    mapExternalIP
        ⟨[("p", ⟨"p", "pn", [], [⟨0x0A000005⟩], 1, 1⟩)], [], [0x0A000005], []⟩
        "p" "i" (some ⟨0xAC100002, "t"⟩) true false =
      ⟨some .db, none,
        ⟨[("p", ⟨"p", "pn", [], [⟨0x0A000005⟩], 1, 1⟩)], [], [0x0A000005],
          [(0x0A000005, ⟨0x0A000005, 0xAC100002, "i", "t", "p", "pn"⟩)]⟩⟩ ∧
    lookupKV 0x0A000005
        (mapExternalIP
          ⟨[("p", ⟨"p", "pn", [], [⟨0x0A000005⟩], 1, 1⟩)], [], [0x0A000005], []⟩
          "p" "i" (some ⟨0xAC100002, "t"⟩) true false).st.mappedIPs =
      some ⟨0x0A000005, 0xAC100002, "i", "t", "p", "pn"⟩ := by
  decide

/-- C5 as amended: in `MapExternalIP`, once a free address `x` is found, a
failing `addMappedIP` returns the error with no cache commit at all; but a
failing `updatePool` returns the error with the new `MappedIP` already
committed to the `mappedIPs` cache (only the `pools` row commit is
skipped). -/
theorem claim_C5_amended_updatepool_commits (st : PoolsState)
    (poolID instanceID : String) (inst : MapInstance) (pool : Pool) (x : Nat)
    (hp : lookupKV poolID st.pools = some pool)
    (hfree : pool.free ≠ 0)
    (hfind : findFreeInSubnets st.mappedIPs pool.subnets = some x ∨
      (findFreeInSubnets st.mappedIPs pool.subnets = none ∧
       findFreeInIPs st.mappedIPs pool.ips = some x)) :
    (∀ updOK, mapExternalIP st poolID instanceID (some inst) false updOK =
      ⟨some .db, none, st⟩) ∧
    mapExternalIP st poolID instanceID (some inst) true false =
      ⟨some .db, none,
        { st with mappedIPs :=
            insertKV x (MappedIP.mk x inst.ipAddress instanceID inst.tenantID
              pool.id pool.name) st.mappedIPs }⟩ := by
  constructor
  · intro updOK
    rcases hfind with hf | ⟨hf1, hf2⟩
    · simp [mapExternalIP, hp, hfree, hf, mapCommit]
    · simp [mapExternalIP, hp, hfree, hf1, hf2, mapCommit]
  · rcases hfind with hf | ⟨hf1, hf2⟩
    · simp [mapExternalIP, hp, hfree, hf, mapCommit]
    · simp [mapExternalIP, hp, hfree, hf1, hf2, mapCommit]

/-- Witness for C5's amended theorem at the counterexample's concrete
state. -/
theorem claim_C5_amended_witness :
    (∀ updOK, mapExternalIP
        ⟨[("p", ⟨"p", "pn", [], [⟨0x0A000005⟩], 1, 1⟩)], [], [0x0A000005], []⟩
        "p" "i" (some ⟨0xAC100002, "t"⟩) false updOK =
      ⟨some .db, none,
        ⟨[("p", ⟨"p", "pn", [], [⟨0x0A000005⟩], 1, 1⟩)], [], [0x0A000005], []⟩⟩) ∧
    mapExternalIP
        ⟨[("p", ⟨"p", "pn", [], [⟨0x0A000005⟩], 1, 1⟩)], [], [0x0A000005], []⟩
        "p" "i" (some ⟨0xAC100002, "t"⟩) true false =
      ⟨some .db, none,
        ⟨[("p", ⟨"p", "pn", [], [⟨0x0A000005⟩], 1, 1⟩)], [], [0x0A000005],
          insertKV 0x0A000005 ⟨0x0A000005, 0xAC100002, "i", "t", "p", "pn"⟩ []⟩⟩ :=
  claim_C5_amended_updatepool_commits
    ⟨[("p", ⟨"p", "pn", [], [⟨0x0A000005⟩], 1, 1⟩)], [], [0x0A000005], []⟩
    "p" "i" ⟨0xAC100002, "t"⟩ ⟨"p", "pn", [], [⟨0x0A000005⟩], 1, 1⟩ 0x0A000005
    (by decide) (by decide) (Or.inr ⟨by decide, by decide⟩)

end Ciao

namespace Ciao

theorem isDuplicateSubnet_mono (ext ext' : List Subnet) (s : Subnet)
    (hsub : ∀ t ∈ ext, t ∈ ext') (h : isDuplicateSubnet ext s = true) :
    isDuplicateSubnet ext' s = true := by
  rw [isDuplicateSubnet, List.any_eq_true] at h ⊢
  obtain ⟨t, ht, hp⟩ := h
  exact ⟨t, hsub t ht, hp⟩

theorem registerSubnets_dup (ext0 : List Subnet) :
    ∀ (req : List Subnet) (ext : List Subnet),
      (∃ s ∈ req, isDuplicateSubnet ext0 s = true) →
      (∀ t ∈ ext0, t ∈ ext) →
      (registerSubnets ext req).1 = false := by
  intro req
  induction req with
  | nil =>
    rintro ext ⟨s, hs, _⟩ _
    simp at hs
  | cons a req ih =>
    rintro ext ⟨s, hs, hdup⟩ hsub
    by_cases ha : isDuplicateSubnet ext a = true
    · simp [registerSubnets, ha]
    · have hmono : isDuplicateSubnet ext s = true :=
        isDuplicateSubnet_mono ext0 ext s hsub hdup
      have hsa : s ≠ a := fun he => ha (he ▸ hmono)
      have hs' : s ∈ req := by
        rcases List.mem_cons.mp hs with rfl | h
        · exact absurd rfl hsa
        · exact h
      simp only [registerSubnets, ha, Bool.false_eq_true, if_false]
      exact ih (ext ++ [a]) ⟨s, hs', hdup⟩
        (fun t ht => List.mem_append.mpr (Or.inl (hsub t ht)))

theorem addIPsLoop_dup (ext : List Subnet) (ips : List Nat) :
    ∀ (l : List Nat) (lastIP : Option Nat) (p : Pool),
      (∃ ip ∈ l, isDuplicateIP ext ips ip = true) →
      addIPsLoop ext ips lastIP p l = none := by
  intro l
  induction l with
  | nil =>
    rintro lastIP p ⟨ip, h, _⟩
    simp at h
  | cons a l ih =>
    rintro lastIP p ⟨ip, hmem, hdup⟩
    by_cases h1 : lastIP = some a
    · simp [addIPsLoop, h1]
    · by_cases h2 : isDuplicateIP ext ips a = true
      · simp [addIPsLoop, h1, h2]
      · have hia : ip ≠ a := fun he => h2 (he ▸ hdup)
        have hmem' : ip ∈ l := by
          rcases List.mem_cons.mp hmem with rfl | h
          · exact absurd rfl hia
          · exact h
        simp only [addIPsLoop, h1, h2, Bool.false_eq_true, if_false]
        exact ih (some a) _ ⟨ip, hmem', hdup⟩

theorem mem_insertSorted (x y : Nat) (l : List Nat) :
    y ∈ insertSorted x l ↔ y = x ∨ y ∈ l := by
  induction l with
  | nil => simp [insertSorted]
  | cons a l ih =>
    by_cases h : ipStr x ≤ ipStr a
    · simp [insertSorted, h]
    · simp only [insertSorted, if_neg h, List.mem_cons, ih]
      tauto

theorem mem_sortIPs (y : Nat) (l : List Nat) : y ∈ sortIPs l ↔ y ∈ l := by
  induction l with
  | nil => simp [sortIPs]
  | cons a l ih =>
    simp only [sortIPs, mem_insertSorted, List.mem_cons, ih]

/-- C7: creating or extending an external IP pool rejects duplicates without
creating the pool or changing any existing pool.  (1) An `AddPool` request
with some subnet overlapping a registered pool subnet fails with
`DuplicateSubnet` and leaves the `pools` cache unchanged.  (2) An `AddPool`
request of individual IPs with some address already registered or covered by
a registered subnet fails with `DuplicateIP` and changes nothing.  (3)
`AddExternalSubnet` of an overlapping subnet fails with `DuplicateSubnet` and
changes nothing.  (4) `AddExternalIPs` containing a duplicate address fails
with `DuplicateIP` and changes nothing.  (5) The claim's example: with a pool
holding `10.0.0.0/24`, adding a pool with subnet `10.0.0.128/25` fails with
`DuplicateSubnet`, and adding individual IP `10.0.0.5` fails with
`DuplicateIP`. -/
theorem claim_C7_duplicate_rejection :
    (∀ (st : PoolsState) (pool : Pool) (dbAddOK dbDelOK : Bool),
      (∃ s ∈ pool.subnets, isDuplicateSubnet st.externalSubnets s = true) →
      (addPool st pool dbAddOK dbDelOK).1.1 = some .duplicateSubnet ∧
      (addPool st pool dbAddOK dbDelOK).1.2.pools = st.pools) ∧
    (∀ (st : PoolsState) (pool : Pool) (dbAddOK dbDelOK : Bool),
      pool.subnets = [] →
      (∃ ip ∈ pool.ips,
        isDuplicateIP st.externalSubnets st.externalIPs ip.address = true) →
      addPool st pool dbAddOK dbDelOK = ((some .duplicateIP, st), [])) ∧
    (∀ (st : PoolsState) (poolID : String) (p : Pool) (sub : Subnet) (dbOK : Bool),
      lookupKV poolID st.pools = some p →
      isDuplicateSubnet st.externalSubnets sub = true →
      addExternalSubnet st poolID sub dbOK = (some .duplicateSubnet, st)) ∧
    (∀ (st : PoolsState) (poolID : String) (p : Pool) (ipsReq : List Nat)
      (dbOK : Bool),
      lookupKV poolID st.pools = some p →
      (∃ ip ∈ ipsReq, isDuplicateIP st.externalSubnets st.externalIPs ip = true) →
      addExternalIPs st poolID ipsReq dbOK = (some .duplicateIP, st)) ∧
    ((addPool ⟨[("A", ⟨"A", "A", [⟨0x0A000000, 24⟩], [], 254, 254⟩)],
        [⟨0x0A000000, 24⟩], [], []⟩
        ⟨"B", "B", [⟨0x0A000080, 25⟩], [], 126, 126⟩ true true).1.1 =
          some .duplicateSubnet ∧
     (addPool ⟨[("A", ⟨"A", "A", [⟨0x0A000000, 24⟩], [], 254, 254⟩)],
        [⟨0x0A000000, 24⟩], [], []⟩
        ⟨"B", "B", [⟨0x0A000080, 25⟩], [], 126, 126⟩ true true).1.2.pools =
          [("A", ⟨"A", "A", [⟨0x0A000000, 24⟩], [], 254, 254⟩)] ∧
     addExternalIPs ⟨[("A", ⟨"A", "A", [⟨0x0A000000, 24⟩], [], 254, 254⟩)],
        [⟨0x0A000000, 24⟩], [], []⟩ "A" [0x0A000005] true =
       (some .duplicateIP,
        ⟨[("A", ⟨"A", "A", [⟨0x0A000000, 24⟩], [], 254, 254⟩)],
          [⟨0x0A000000, 24⟩], [], []⟩)) := by
  refine ⟨?_, ?_, ?_, ?_, by decide, by decide, by decide⟩
  · rintro st pool dbAddOK dbDelOK ⟨s, hs, hdup⟩
    have hne : pool.subnets ≠ [] := by
      intro h
      rw [h] at hs
      simp at hs
    have hreg : (registerSubnets st.externalSubnets pool.subnets).1 = false :=
      registerSubnets_dup st.externalSubnets pool.subnets st.externalSubnets
        ⟨s, hs, hdup⟩ (fun t ht => ht)
    cases hreg2 : registerSubnets st.externalSubnets pool.subnets with
    | mk b ext' =>
      rw [hreg2] at hreg
      subst hreg
      constructor
      · simp [addPool, hne, hreg2]
      · simp [addPool, hne, hreg2]
  · rintro st pool dbAddOK dbDelOK hs ⟨ip, hip, hdup⟩
    have hne : pool.ips ≠ [] := by
      intro h
      rw [h] at hip
      simp at hip
    have hany : pool.ips.any
        (fun ip => isDuplicateIP st.externalSubnets st.externalIPs ip.address) =
          true := List.any_eq_true.mpr ⟨ip, hip, hdup⟩
    simp [addPool, hs, hne, hany]
  · intro st poolID p sub dbOK hp hdup
    simp [addExternalSubnet, hp, hdup]
  · rintro st poolID p ipsReq dbOK hp ⟨ip, hip, hdup⟩
    have hloop : addIPsLoop st.externalSubnets st.externalIPs none p
        (sortIPs ipsReq) = none :=
      addIPsLoop_dup st.externalSubnets st.externalIPs (sortIPs ipsReq) none p
        ⟨ip, (mem_sortIPs ip ipsReq).mpr hip, hdup⟩
    simp [addExternalIPs, hp, hloop]

/-- Witness for C7's universally quantified parts at concrete inputs (the
same configuration as the claim's example). -/
theorem claim_C7_witness :
    ((addPool ⟨[("A", ⟨"A", "A", [⟨0x0A000000, 24⟩], [], 254, 254⟩)],
        [⟨0x0A000000, 24⟩], [], []⟩
        ⟨"C", "C", [⟨0x0A000000, 26⟩], [], 62, 62⟩ true true).1.1 =
          some .duplicateSubnet ∧
     (addPool ⟨[("A", ⟨"A", "A", [⟨0x0A000000, 24⟩], [], 254, 254⟩)],
        [⟨0x0A000000, 24⟩], [], []⟩
        ⟨"C", "C", [⟨0x0A000000, 26⟩], [], 62, 62⟩ true true).1.2.pools =
          [("A", ⟨"A", "A", [⟨0x0A000000, 24⟩], [], 254, 254⟩)]) ∧
    addPool ⟨[("A", ⟨"A", "A", [⟨0x0A000000, 24⟩], [], 254, 254⟩)],
        [⟨0x0A000000, 24⟩], [], []⟩
        ⟨"D", "D", [], [⟨0x0A000007⟩], 1, 1⟩ true true =
      ((some .duplicateIP,
        ⟨[("A", ⟨"A", "A", [⟨0x0A000000, 24⟩], [], 254, 254⟩)],
          [⟨0x0A000000, 24⟩], [], []⟩), []) ∧
    addExternalSubnet ⟨[("A", ⟨"A", "A", [⟨0x0A000000, 24⟩], [], 254, 254⟩)],
        [⟨0x0A000000, 24⟩], [], []⟩ "A" ⟨0x0A000040, 26⟩ true =
      (some .duplicateSubnet,
        ⟨[("A", ⟨"A", "A", [⟨0x0A000000, 24⟩], [], 254, 254⟩)],
          [⟨0x0A000000, 24⟩], [], []⟩) ∧
    addExternalIPs ⟨[("A", ⟨"A", "A", [⟨0x0A000000, 24⟩], [], 254, 254⟩)],
        [⟨0x0A000000, 24⟩], [], []⟩ "A" [0x0A000009] true =
      (some .duplicateIP,
        ⟨[("A", ⟨"A", "A", [⟨0x0A000000, 24⟩], [], 254, 254⟩)],
          [⟨0x0A000000, 24⟩], [], []⟩) := by
  refine ⟨⟨?_, ?_⟩, ?_, ?_, ?_⟩
  · exact (claim_C7_duplicate_rejection.1 _ _ true true
      ⟨⟨0x0A000000, 26⟩, by decide, by decide⟩).1
  · exact (claim_C7_duplicate_rejection.1 _ _ true true
      ⟨⟨0x0A000000, 26⟩, by decide, by decide⟩).2
  · exact claim_C7_duplicate_rejection.2.1 _ _ true true (by decide)
      ⟨⟨0x0A000007⟩, by decide, by decide⟩
  · exact claim_C7_duplicate_rejection.2.2.1 _ "A"
      ⟨"A", "A", [⟨0x0A000000, 24⟩], [], 254, 254⟩ ⟨0x0A000040, 26⟩ true
      (by decide) (by decide)
  · exact claim_C7_duplicate_rejection.2.2.2.1 _ "A"
      ⟨"A", "A", [⟨0x0A000000, 24⟩], [], 254, 254⟩ [0x0A000009] true
      (by decide) ⟨0x0A000009, by decide, by decide⟩

end Ciao
